import Mathlib

/-!
Verification development for the rayfloat offline renderer.

The C++ source computes with IEEE doubles; this embedding abstracts
`double` as the exact rational numbers `ℚ` (with `WithTop ℚ` standing for
a `double` upper bound that may be `INFINITY`, as in `ray_color`'s call
`world.hit(cur_ray, 0.001, INFINITY, record)`).  Square roots, which a
rational field lacks, are modelled by `ratSqrt`, which is exact on every
perfect rational square; all concrete evaluations in this file stay inside
that exact domain, and the universal theorems below only use the facts
`0 ≤ ratSqrt q` and exactness on squares, which hold of the real square
root as well.
-/

/-- Rational square root: exact whenever the (reduced) numerator and
denominator are perfect squares, in particular on every `q * q` with
`0 ≤ q`.  Used to model `std::sqrt` from `<cmath>`. -/
def ratSqrt (q : ℚ) : ℚ :=
  (Nat.sqrt q.num.toNat : ℚ) / (Nat.sqrt q.den : ℚ)

/-- Embedding of `Vec3` from `src/include/vec3.h`: three rational
components standing for the three `double` members. -/
structure Vec3 where
  x : ℚ
  y : ℚ
  z : ℚ
deriving DecidableEq

instance : Add Vec3 := ⟨fun a b => ⟨a.x + b.x, a.y + b.y, a.z + b.z⟩⟩

instance : Sub Vec3 := ⟨fun a b => ⟨a.x - b.x, a.y - b.y, a.z - b.z⟩⟩

instance : Neg Vec3 := ⟨fun a => ⟨-a.x, -a.y, -a.z⟩⟩

/-- Models `Vec3::operator*(double t)`. -/
instance : HMul Vec3 ℚ Vec3 := ⟨fun v t => ⟨v.x * t, v.y * t, v.z * t⟩⟩

/-- Models `operator*(double t, const Vec3& v)` (defined as `v * t`). -/
instance : HMul ℚ Vec3 Vec3 := ⟨fun t v => v * t⟩

/-- Componentwise `Vec3::operator*(const Vec3&)`. -/
instance : HMul Vec3 Vec3 Vec3 := ⟨fun a b => ⟨a.x * b.x, a.y * b.y, a.z * b.z⟩⟩

/-- Models `Vec3::operator/(double t)`, which is `*this * (1.0 / t)`. -/
instance : HDiv Vec3 ℚ Vec3 := ⟨fun v t => v * (1 / t)⟩

def Vec3.dot (a b : Vec3) : ℚ := a.x * b.x + a.y * b.y + a.z * b.z

def Vec3.length_squared (a : Vec3) : ℚ := a.x * a.x + a.y * a.y + a.z * a.z

def Vec3.length (a : Vec3) : ℚ := ratSqrt a.length_squared

def Vec3.unit_vector (a : Vec3) : Vec3 := a / a.length

abbrev Color := Vec3

/-- Models `reflect` from `src/include/vec3.h`. -/
def reflect (v n : Vec3) : Vec3 := v - (2 * v.dot n : ℚ) * n

/-- Models `refract` from `src/include/vec3.h`. -/
def refract (uv n : Vec3) (etai_over_etat : ℚ) : Vec3 :=
  let cos_theta := min (-(uv.dot n)) 1
  let r_out_perp : Vec3 := etai_over_etat * (uv + cos_theta * n)
  let r_out_parallel : Vec3 := -(ratSqrt |1 - r_out_perp.length_squared|) * n
  r_out_perp + r_out_parallel

/-- Embedding of `Ray` from `src/include/ray.h`. -/
structure Ray where
  origin : Vec3
  direction : Vec3
deriving DecidableEq

def Ray.at (r : Ray) (t : ℚ) : Vec3 := r.origin + t * r.direction

/-- Embedding of `AABB` from `src/include/aabb.h`. -/
structure AABB where
  minimum : Vec3
  maximum : Vec3
deriving DecidableEq

def AABB.surrounding_box (box0 box1 : AABB) : AABB :=
  ⟨⟨min box0.minimum.x box1.minimum.x,
    min box0.minimum.y box1.minimum.y,
    min box0.minimum.z box1.minimum.z⟩,
   ⟨max box0.maximum.x box1.maximum.x,
    max box0.maximum.y box1.maximum.y,
    max box0.maximum.z box1.maximum.z⟩⟩

/-- Selects the component of a `Vec3` for loop index `a` in
`AABB::hit`'s chained conditionals `(a==0)? v.x : (a==1)? v.y : v.z`. -/
def axisComp (v : Vec3) (a : Fin 3) : ℚ :=
  if a = 0 then v.x else if a = 1 then v.y else v.z

/-- One iteration of the slab loop in `AABB::hit`: returns the narrowed
running interval, or `none` when `t_max <= t_min` rejects the box. -/
def slabStep (box : AABB) (r : Ray) (a : Fin 3) (t_min : ℚ) (t_max : WithTop ℚ) :
    Option (ℚ × WithTop ℚ) :=
  let invD := 1 / axisComp r.direction a
  let t0 := (axisComp box.minimum a - axisComp r.origin a) * invD
  let t1 := (axisComp box.maximum a - axisComp r.origin a) * invD
  let p : ℚ × ℚ := if invD < 0 then (t1, t0) else (t0, t1)
  let t_min' := if p.1 > t_min then p.1 else t_min
  let t_max' := if (p.2 : WithTop ℚ) < t_max then (p.2 : WithTop ℚ) else t_max
  if t_max' ≤ (t_min' : WithTop ℚ) then none else some (t_min', t_max')

/-- Models `AABB::hit`: the three-axis slab loop, unrolled. -/
def AABB.hit (box : AABB) (r : Ray) (t_min : ℚ) (t_max : WithTop ℚ) : Bool :=
  match slabStep box r 0 t_min t_max with
  | none => false
  | some (m1, x1) =>
    match slabStep box r 1 m1 x1 with
    | none => false
    | some (m2, x2) =>
      match slabStep box r 2 m2 x2 with
      | none => false
      | some _ => true

/-- Embedding of `HitRecord` from `src/include/hittable.h`.  The
`shared_ptr<Material>` member is modelled as an opaque material
identifier (two records agree on `material` exactly when the pointers
agree). -/
structure HitRecord where
  point : Vec3
  normal : Vec3
  t : ℚ
  front_face : Bool
  material : ℕ
deriving DecidableEq

/-- A default-constructed `HitRecord` (as in `HitRecord temp_record;`):
the `Vec3` members default to zero; `t`, `front_face` and the null
material pointer are modelled as `0` / `false` / `0` — the code never
reads them before writing them. -/
instance : Inhabited HitRecord := ⟨⟨⟨0, 0, 0⟩, ⟨0, 0, 0⟩, 0, false, 0⟩⟩

/-- Models `HitRecord::set_face_normal`. -/
def HitRecord.set_face_normal (rec : HitRecord) (ray : Ray) (outward_normal : Vec3) :
    HitRecord :=
  let ff : Bool := decide (ray.direction.dot outward_normal < 0)
  { rec with front_face := ff, normal := if ff then outward_normal else -outward_normal }

/-- Embedding of `Sphere` from `src/include/sphere.h`; the material
pointer is an opaque identifier. -/
structure Sphere where
  center : Vec3
  radius : ℚ
  material : ℕ
deriving DecidableEq

/-- The record-packaging tail of `Sphere::hit`: sets `t`, `point`, the
re-oriented normal and the material, overwriting every field. -/
def Sphere.writeRec (s : Sphere) (ray : Ray) (root : ℚ) (record : HitRecord) : HitRecord :=
  let record := { record with t := root, point := ray.at root }
  let outward_normal := (record.point - s.center) / s.radius
  let record := record.set_face_normal ray outward_normal
  { record with material := s.material }

/-- Models `Sphere::hit`, in explicit state-passing form: the C++ takes
`HitRecord& record` and returns `bool`; here the pair `(b, rec')` is the
returned flag together with the record's state after the call. -/
def Sphere.hit (s : Sphere) (ray : Ray) (t_min : ℚ) (t_max : WithTop ℚ)
    (record : HitRecord) : Bool × HitRecord :=
  let oc := ray.origin - s.center
  let a := ray.direction.length_squared
  let half_b := oc.dot ray.direction
  let c := oc.length_squared - s.radius * s.radius
  let discriminant := half_b * half_b - a * c
  if discriminant < 0 then (false, record)
  else
    let sqrtd := ratSqrt discriminant
    let root := (-half_b - sqrtd) / a
    if root < t_min ∨ t_max < (root : WithTop ℚ) then
      let root2 := (-half_b + sqrtd) / a
      if root2 < t_min ∨ t_max < (root2 : WithTop ℚ) then (false, record)
      else (true, s.writeRec ray root2 record)
    else (true, s.writeRec ray root record)

/-- Modelled from the spec: `Sphere::bounding_box` is absent from the
sources under `src/` (only its callers in `bvh.h` and `hittable_list.h`
appear there); spec §4.3 states "`boundingBox()` = center ± radius on
every axis", always succeeding. -/
def Sphere.bounding_box (s : Sphere) : Option AABB :=
  some ⟨s.center - ⟨s.radius, s.radius, s.radius⟩,
        s.center + ⟨s.radius, s.radius, s.radius⟩⟩

/-- The loop of `HittableList::hit` from `src/include/hittable_list.h`,
carrying the loop state `(closest_so_far, temp_record, hit_anything,
record)` through the remaining objects.  The scene's primitive variant
set is currently `{Sphere}` (spec §3), so the list elements are spheres. -/
def HittableList.hitLoop (ray : Ray) (t_min : ℚ) :
    List Sphere → WithTop ℚ → HitRecord → Bool → HitRecord → Bool × HitRecord
  | [], _, _, hit_anything, record => (hit_anything, record)
  | object :: rest, closest_so_far, temp_record, hit_anything, record =>
    let r := object.hit ray t_min closest_so_far temp_record
    if r.1 then
      HittableList.hitLoop ray t_min rest (r.2.t : WithTop ℚ) r.2 true r.2
    else
      HittableList.hitLoop ray t_min rest closest_so_far r.2 hit_anything record

/-- Models `HittableList::hit`: linear scan over the objects, keeping the
closest hit found so far. -/
def HittableList.hit (objects : List Sphere) (ray : Ray) (t_min : ℚ)
    (t_max : WithTop ℚ) (record : HitRecord) : Bool × HitRecord :=
  HittableList.hitLoop ray t_min objects t_max default false record

/-- The shape of a built BVH: `BVHNode::left`/`right` are
`shared_ptr<Hittable>` that point either at another `BVHNode` (a `node`
with its cached `box`) or directly at a primitive (`prim`).  A
single-primitive leaf in the C++ aliases the primitive as both children
of a `node`. -/
inductive BVHTree (α : Type) where
  | prim (a : α)
  | node (left right : BVHTree α) (box : AABB)
deriving DecidableEq

/-- The virtual `bounding_box` dispatch on a child pointer:
`BVHNode::bounding_box` returns the cached box and `true`; a primitive
child answers with its own `bounding_box` (for spheres, spec-modelled). -/
def BVHTree.boundingBox (boxOf : α → Option AABB) : BVHTree α → Option AABB
  | .prim a => boxOf a
  | .node _ _ box => some box

/-- Models `BVHNode::hit`: test the cached box, then query the left child on
the full window and the right child on the window narrowed to the left
hit's `t`, in state-passing form.  `hitOf` is the virtual `hit` of a
primitive child. -/
def BVHTree.hit (hitOf : α → Ray → ℚ → WithTop ℚ → HitRecord → Bool × HitRecord) :
    BVHTree α → Ray → ℚ → WithTop ℚ → HitRecord → Bool × HitRecord
  | .prim a, ray, t_min, t_max, record => hitOf a ray t_min t_max record
  | .node left right box, ray, t_min, t_max, record =>
    if ¬ box.hit ray t_min t_max then (false, record)
    else
      let l := left.hit hitOf ray t_min t_max record
      let r := right.hit hitOf ray t_min (if l.1 then (l.2.t : WithTop ℚ) else t_max) l.2
      (l.1 || r.1, r.2)

/-- Outcomes of the `BVHNode` constructor: `noBox` models the
`std::runtime_error` thrown when a child (or a compared primitive) has
no bounding box; `outOfFuel` models non-termination (the constructor
recurses forever on an empty span). -/
inductive BuildErr where
  | noBox
  | outOfFuel
deriving DecidableEq

instance {ε α : Type} [DecidableEq ε] [DecidableEq α] : DecidableEq (Except ε α) :=
  fun a b =>
    match a, b with
    | .ok x, .ok y => if h : x = y then .isTrue (by rw [h]) else .isFalse (by simp [h])
    | .error x, .error y => if h : x = y then .isTrue (by rw [h]) else .isFalse (by simp [h])
    | .ok _, .error _ => .isFalse (by simp)
    | .error _, .ok _ => .isFalse (by simp)

/-- The sort key of `BVHNode::box_compare`: the bounding-box minimum on
the chosen axis.  Only evaluated after every element of the span is
known to have a bounding box. -/
def boxMinOn (boxOf : α → Option AABB) (axis : Fin 3) (a : α) : ℚ :=
  match boxOf a with
  | some box => axisComp box.minimum axis
  | none => 0

/-- An insertion of one element into a sorted list, the helper of
`insertionSort` below. -/
def insertSorted (le : α → α → Bool) (a : α) : List α → List α
  | [] => [a]
  | b :: l => if le a b then a :: b :: l else b :: insertSorted le a l

/-- A simple executable sorting function used to model `std::sort`:
`std::sort` promises only a permutation of the range ordered by the
comparator (its exact permutation on tied keys is unspecified), and an
insertion sort delivers one such outcome. -/
def insertionSort (le : α → α → Bool) : List α → List α
  | [] => []
  | a :: l => insertSorted le a (insertionSort le l)

/-- The `BVHNode(objects, start, end)` constructor from
`src/include/bvh.h`, in state-passing form over the sub-list
`objects[start..end)`.  `axs n` is the value drawn by `random_int(0,2)`
at the `n`-th draw of the thread's RNG stream, and the returned `ℕ` is
the next draw index.  The returned list is the (possibly re-sorted)
sub-range, modelling the in-place `std::sort`.  A span with a box-less
element makes the throwing comparator (or the constructor's own check)
raise, modelled as `.error .noBox`; `fuel` bounds the recursion depth,
and the infinite recursion the C++ performs on an empty span surfaces
as `.error .outOfFuel`. -/
def BVHNode.build (boxOf : α → Option AABB) (axs : ℕ → Fin 3) :
    ℕ → List α → ℕ → Except BuildErr (BVHTree α × List α × ℕ)
  | 0, _, _ => .error .outOfFuel
  | fuel + 1, objects, n =>
    let axis := axs n
    match objects with
    | [a] =>
      match BVHTree.boundingBox boxOf (.prim a) with
      | none => .error .noBox
      | some box_left =>
        .ok (.node (.prim a) (.prim a) (AABB.surrounding_box box_left box_left), [a], n + 1)
    | [a, b] =>
      match BVHTree.boundingBox boxOf (.prim a), BVHTree.boundingBox boxOf (.prim b) with
      | some box_a, some box_b =>
        if axisComp box_a.minimum axis < axisComp box_b.minimum axis then
          .ok (.node (.prim a) (.prim b) (AABB.surrounding_box box_a box_b), [a, b], n + 1)
        else
          .ok (.node (.prim b) (.prim a) (AABB.surrounding_box box_b box_a), [a, b], n + 1)
      | _, _ => .error .noBox
    | objects =>
      if objects.any fun o => (boxOf o).isNone then .error .noBox
      else
        let sorted := insertionSort (fun a b => decide (boxMinOn boxOf axis a < boxMinOn boxOf axis b)) objects
        let mid := objects.length / 2
        match BVHNode.build boxOf axs fuel (sorted.take mid) (n + 1) with
        | .error e => .error e
        | .ok (left, leftList, n1) =>
          match BVHNode.build boxOf axs fuel (sorted.drop mid) n1 with
          | .error e => .error e
          | .ok (right, rightList, n2) =>
            match left.boundingBox boxOf, right.boundingBox boxOf with
            | some box_left, some box_right =>
              .ok (.node left right (AABB.surrounding_box box_left box_right),
                   leftList ++ rightList, n2)
            | _, _ => .error .noBox

/-- The primitives stored at the leaves of a BVH tree, in order. -/
def BVHTree.prims : BVHTree α → List α
  | .prim a => [a]
  | .node left right _ => left.prims ++ right.prims

/-- Embedding of `Metal` from `src/include/material.h` (data members). -/
structure Metal where
  albedo : Color
  fuzziness : ℚ
deriving DecidableEq

/-- The `Metal(albedo, fuzziness)` constructor: the member initialiser
is `fuzziness(fuzziness < 1 ? fuzziness : 1)`. -/
def Metal.make (albedo : Color) (fuzziness : ℚ) : Metal :=
  ⟨albedo, if fuzziness < 1 then fuzziness else 1⟩

/-- Models `Dielectric::reflectance` (Schlick's approximation). -/
def Dielectric.reflectance (cosine ref_idx : ℚ) : ℚ :=
  let r0 := (1 - ref_idx) / (1 + ref_idx)
  let r0 := r0 * r0
  r0 + (1 - r0) * (1 - cosine) ^ (5 : ℕ)

/-- Models `Dielectric::scatter` from `src/include/material.h`.  `ir` is the
stored refractive index, and `u01` is the value the call to
`random_double()` would return (consumed only when the short-circuit
`cannot_refract || ...` evaluates its right operand, which does not
change the scattered ray).  Returns `(returned bool, attenuation,
scattered)`. -/
def Dielectric.scatter (ir : ℚ) (ray_in : Ray) (record : HitRecord) (u01 : ℚ) :
    Bool × Color × Ray :=
  let attenuation : Color := ⟨1, 1, 1⟩
  let refraction_ratio := if record.front_face then 1 / ir else ir
  let unit_direction := ray_in.direction.unit_vector
  let cos_theta := min (-(unit_direction.dot record.normal)) 1
  let sin_theta := ratSqrt (1 - cos_theta * cos_theta)
  let cannot_refract : Bool := decide (refraction_ratio * sin_theta > 1)
  let direction :=
    if cannot_refract ∨ Dielectric.reflectance cos_theta refraction_ratio > u01 then
      reflect unit_direction record.normal
    else
      refract unit_direction record.normal refraction_ratio
  (true, attenuation, ⟨record.point, direction⟩)

/-- The background colour computed on a miss in `ray_color`
(`src/include/camera.h`): a vertical white-to-sky-blue gradient in the
ray's normalized vertical direction component. -/
def skyColor (r : Ray) : Color :=
  let unit_direction := r.direction.unit_vector
  let t := (1 / 2 : ℚ) * (unit_direction.y + 1)
  (1 - t : ℚ) * (⟨1, 1, 1⟩ : Color) + t * (⟨1/2, 7/10, 1⟩ : Color)

/-- The iterative bounce loop of `ray_color` (`src/include/camera.h`),
with the remaining iteration count as `fuel` and the loop state
`(cur_ray, accumulated_attenuation, emitted_light)` explicit.  The scene
is abstracted exactly as `ray_color` sees it: `worldHit` is the virtual
`world.hit`, and the virtual material dispatch through
`record.material->emitted()` / `->scatter(...)` is the pair `emitted`
(colour emitted for a record) and `scatter` (returning `none` for
absorption, or the attenuation and scattered ray, threading the RNG
state `σ`). -/
def rayColorLoop (worldHit : Ray → ℚ → WithTop ℚ → HitRecord → Bool × HitRecord)
    (emitted : HitRecord → Color)
    (scatter : Ray → HitRecord → σ → Option (Color × Ray) × σ) :
    ℕ → Ray → Color → Color → σ → Color
  | 0, _, _, _, _ => ⟨0, 0, 0⟩
  | fuel + 1, cur_ray, accumulated_attenuation, emitted_light, rng =>
    let h := worldHit cur_ray (1 / 1000) ⊤ default
    if h.1 then
      let record := h.2
      let emitted_light := emitted_light + accumulated_attenuation * emitted record
      match scatter cur_ray record rng with
      | (some (attenuation, scattered), rng') =>
        rayColorLoop worldHit emitted scatter fuel scattered
          (accumulated_attenuation * attenuation) emitted_light rng'
      | (none, _) => emitted_light
    else
      let unit_direction := cur_ray.direction.unit_vector
      let t := (1 / 2 : ℚ) * (unit_direction.y + 1)
      let sky_color : Color := (1 - t : ℚ) * (⟨1, 1, 1⟩ : Color) + t * (⟨1/2, 7/10, 1⟩ : Color)
      emitted_light + accumulated_attenuation * sky_color

/-- Models `ray_color(ray, world, depth)`: runs the bounce loop with
`accumulated_attenuation = (1,1,1)` and `emitted_light = (0,0,0)`. -/
def ray_color (worldHit : Ray → ℚ → WithTop ℚ → HitRecord → Bool × HitRecord)
    (emitted : HitRecord → Color)
    (scatter : Ray → HitRecord → σ → Option (Color × Ray) × σ)
    (ray : Ray) (depth : ℕ) (rng : σ) : Color :=
  rayColorLoop worldHit emitted scatter depth ray ⟨1, 1, 1⟩ ⟨0, 0, 0⟩ rng

/-! Proof layer: named forms of the intermediate quantities of
`Sphere::hit`, and basic lemmas about the hit functions. -/

def sphA (ray : Ray) : ℚ := ray.direction.length_squared

def sphHalfB (s : Sphere) (ray : Ray) : ℚ := (ray.origin - s.center).dot ray.direction

def sphDisc (s : Sphere) (ray : Ray) : ℚ :=
  sphHalfB s ray * sphHalfB s ray -
    sphA ray * ((ray.origin - s.center).length_squared - s.radius * s.radius)

def sphRoot1 (s : Sphere) (ray : Ray) : ℚ :=
  (-sphHalfB s ray - ratSqrt (sphDisc s ray)) / sphA ray

def sphRoot2 (s : Sphere) (ray : Ray) : ℚ :=
  (-sphHalfB s ray + ratSqrt (sphDisc s ray)) / sphA ray

theorem ratSqrt_nonneg (q : ℚ) : 0 ≤ ratSqrt q := by
  unfold ratSqrt
  positivity

theorem ratSqrt_mul_self (s : ℚ) (hs : 0 ≤ s) : ratSqrt (s * s) = s := by
  unfold ratSqrt
  rw [Rat.mul_self_num, Rat.mul_self_den]
  have h0 : (0 : ℤ) ≤ s.num := Rat.num_nonneg.mpr hs
  have hnum : (s.num * s.num).toNat = s.num.toNat * s.num.toNat := by
    rcases Int.eq_ofNat_of_zero_le h0 with ⟨m, hm⟩
    rw [hm, ← Int.natCast_mul, Int.toNat_natCast, Int.toNat_natCast]
  rw [hnum, Nat.sqrt_eq, Nat.sqrt_eq]
  have hn : ((s.num.toNat : ℤ) : ℚ) = (s.num : ℚ) := by
    congr 1
    exact Int.toNat_of_nonneg h0
  push_cast at hn ⊢
  rw [hn]
  exact Rat.num_div_den s

theorem Sphere.hit_unfold (s : Sphere) (ray : Ray) (t_min : ℚ) (t_max : WithTop ℚ)
    (rec : HitRecord) :
    s.hit ray t_min t_max rec =
      if sphDisc s ray < 0 then (false, rec)
      else if sphRoot1 s ray < t_min ∨ t_max < (sphRoot1 s ray : WithTop ℚ) then
        (if sphRoot2 s ray < t_min ∨ t_max < (sphRoot2 s ray : WithTop ℚ) then (false, rec)
         else (true, s.writeRec ray (sphRoot2 s ray) rec))
      else (true, s.writeRec ray (sphRoot1 s ray) rec) := rfl

theorem Vec3.length_squared_nonneg (v : Vec3) : 0 ≤ v.length_squared := by
  unfold Vec3.length_squared
  have hx := mul_self_nonneg v.x
  have hy := mul_self_nonneg v.y
  have hz := mul_self_nonneg v.z
  linarith

theorem sphRoot1_le_sphRoot2 (s : Sphere) (ray : Ray) : sphRoot1 s ray ≤ sphRoot2 s ray := by
  unfold sphRoot1 sphRoot2
  have hs := ratSqrt_nonneg (sphDisc s ray)
  rcases (Vec3.length_squared_nonneg ray.direction).eq_or_lt with h | h
  · unfold sphA
    rw [← h, div_zero, div_zero]
  · have ha : (0 : ℚ) < sphA ray := h
    rw [div_le_div_iff_of_pos_right ha]
    linarith

theorem Sphere.writeRec_indep (s : Sphere) (ray : Ray) (root : ℚ) (rec1 rec2 : HitRecord) :
    s.writeRec ray root rec1 = s.writeRec ray root rec2 := rfl

theorem Sphere.writeRec_t (s : Sphere) (ray : Ray) (root : ℚ) (rec : HitRecord) :
    (s.writeRec ray root rec).t = root := rfl

/-- A failed `Sphere::hit` leaves the caller's record unchanged. -/
theorem Sphere.hit_false_frame {s : Sphere} {ray : Ray} {t_min : ℚ} {t_max : WithTop ℚ}
    {rec rec' : HitRecord} (h : s.hit ray t_min t_max rec = (false, rec')) : rec' = rec := by
  rw [Sphere.hit_unfold] at h
  split_ifs at h <;> simp_all

/-- A successful `Sphere::hit` is oblivious to the record's prior state. -/
theorem Sphere.hit_indep {s : Sphere} {ray : Ray} {t_min : ℚ} {t_max : WithTop ℚ}
    {rec : HitRecord} {R : HitRecord} (rec2 : HitRecord)
    (h : s.hit ray t_min t_max rec = (true, R)) : s.hit ray t_min t_max rec2 = (true, R) := by
  rw [Sphere.hit_unfold] at h ⊢
  split_ifs at h ⊢ <;> simp_all
  · rw [← h]
    exact Sphere.writeRec_indep s ray _ rec2 rec
  · rw [← h]
    exact Sphere.writeRec_indep s ray _ rec2 rec

/-- A successful `Sphere::hit` reports a `t` inside the query window. -/
theorem Sphere.hit_t_mem {s : Sphere} {ray : Ray} {t_min : ℚ} {t_max : WithTop ℚ}
    {rec R : HitRecord} (h : s.hit ray t_min t_max rec = (true, R)) :
    t_min ≤ R.t ∧ (R.t : WithTop ℚ) ≤ t_max := by
  rw [Sphere.hit_unfold] at h
  split_ifs at h with h1 h2 h3
  · exact absurd h (by simp)
  · exact absurd h (by simp)
  · rw [not_or, not_lt, not_lt] at h3
    have hR : R = s.writeRec ray (sphRoot2 s ray) rec := by
      simpa [Prod.ext_iff, eq_comm] using h
    rw [hR, Sphere.writeRec_t]
    exact h3
  · rw [not_or, not_lt, not_lt] at h2
    have hR : R = s.writeRec ray (sphRoot1 s ray) rec := by
      simpa [Prod.ext_iff, eq_comm] using h
    rw [hR, Sphere.writeRec_t]
    exact h2

/-- Widening the upper end of the window preserves a successful
`Sphere::hit` with the same resulting record. -/
theorem Sphere.hit_widen {s : Sphere} {ray : Ray} {t_min : ℚ} {t_max t_max' : WithTop ℚ}
    {rec R : HitRecord} (h : s.hit ray t_min t_max rec = (true, R)) (hle : t_max ≤ t_max') :
    s.hit ray t_min t_max' rec = (true, R) := by
  have hroots : (sphRoot1 s ray : WithTop ℚ) ≤ (sphRoot2 s ray : WithTop ℚ) :=
    WithTop.coe_le_coe.mpr (sphRoot1_le_sphRoot2 s ray)
  rw [Sphere.hit_unfold] at h ⊢
  by_cases hd : sphDisc s ray < 0
  · rw [if_pos hd] at h
    exact absurd h (by simp)
  · rw [if_neg hd] at h ⊢
    by_cases h1 : sphRoot1 s ray < t_min ∨ t_max < (sphRoot1 s ray : WithTop ℚ)
    · rw [if_pos h1] at h
      by_cases h2 : sphRoot2 s ray < t_min ∨ t_max < (sphRoot2 s ray : WithTop ℚ)
      · rw [if_pos h2] at h
        exact absurd h (by simp)
      · rw [if_neg h2] at h
        rw [not_or, not_lt, not_lt] at h2
        have hr1 : sphRoot1 s ray < t_min := by
          rcases h1 with h1 | h1
          · exact h1
          · exact absurd (lt_of_lt_of_le h1 (le_trans hroots h2.2)) (lt_irrefl _)
        have hc2' : ¬(sphRoot2 s ray < t_min ∨ t_max' < (sphRoot2 s ray : WithTop ℚ)) := by
          rw [not_or, not_lt, not_lt]
          exact ⟨h2.1, le_trans h2.2 hle⟩
        rw [if_pos (Or.inl hr1), if_neg hc2']
        exact h
    · rw [if_neg h1] at h
      rw [not_or, not_lt, not_lt] at h1
      have hc1' : ¬(sphRoot1 s ray < t_min ∨ t_max' < (sphRoot1 s ray : WithTop ℚ)) := by
        rw [not_or, not_lt, not_lt]
        exact ⟨h1.1, le_trans h1.2 hle⟩
      rw [if_neg hc1']
      exact h

/-- Narrowing the upper end of the window down to any bound still at or
above the reported `t` preserves a successful `Sphere::hit` with the
same resulting record. -/
theorem Sphere.hit_narrow {s : Sphere} {ray : Ray} {t_min : ℚ} {t_max c : WithTop ℚ}
    {rec R : HitRecord} (h : s.hit ray t_min t_max rec = (true, R))
    (hRc : (R.t : WithTop ℚ) ≤ c) :
    s.hit ray t_min c rec = (true, R) := by
  have hroots : (sphRoot1 s ray : WithTop ℚ) ≤ (sphRoot2 s ray : WithTop ℚ) :=
    WithTop.coe_le_coe.mpr (sphRoot1_le_sphRoot2 s ray)
  rw [Sphere.hit_unfold] at h ⊢
  by_cases hd : sphDisc s ray < 0
  · rw [if_pos hd] at h
    exact absurd h (by simp)
  · rw [if_neg hd] at h ⊢
    by_cases h1 : sphRoot1 s ray < t_min ∨ t_max < (sphRoot1 s ray : WithTop ℚ)
    · rw [if_pos h1] at h
      by_cases h2 : sphRoot2 s ray < t_min ∨ t_max < (sphRoot2 s ray : WithTop ℚ)
      · rw [if_pos h2] at h
        exact absurd h (by simp)
      · rw [if_neg h2] at h
        rw [not_or, not_lt, not_lt] at h2
        have hR2 : R = s.writeRec ray (sphRoot2 s ray) rec := by
          simpa [Prod.ext_iff, eq_comm] using h
        have hRt : R.t = sphRoot2 s ray := by rw [hR2, Sphere.writeRec_t]
        have hr1 : sphRoot1 s ray < t_min := by
          rcases h1 with h1 | h1
          · exact h1
          · exact absurd (lt_of_lt_of_le h1 (le_trans hroots h2.2)) (lt_irrefl _)
        have hc2' : ¬(sphRoot2 s ray < t_min ∨ c < (sphRoot2 s ray : WithTop ℚ)) := by
          rw [not_or, not_lt, not_lt]
          refine ⟨h2.1, ?_⟩
          rw [← hRt]
          exact hRc
        rw [if_pos (Or.inl hr1), if_neg hc2']
        exact h
    · rw [if_neg h1] at h
      rw [not_or, not_lt, not_lt] at h1
      have hR1 : R = s.writeRec ray (sphRoot1 s ray) rec := by
        simpa [Prod.ext_iff, eq_comm] using h
      have hRt : R.t = sphRoot1 s ray := by rw [hR1, Sphere.writeRec_t]
      have hc1' : ¬(sphRoot1 s ray < t_min ∨ c < (sphRoot1 s ray : WithTop ℚ)) := by
        rw [not_or, not_lt, not_lt]
        refine ⟨h1.1, ?_⟩
        rw [← hRt]
        exact hRc
      rw [if_neg hc1']
      exact h

theorem HittableList.hitLoop_hb_true (ray : Ray) (t_min : ℚ) (l : List Sphere) :
    ∀ (closest : WithTop ℚ) (temp rec : HitRecord),
      (HittableList.hitLoop ray t_min l closest temp true rec).1 = true := by
  induction l with
  | nil => intro closest temp rec; rfl
  | cons o rest ih =>
    intro closest temp rec
    simp only [HittableList.hitLoop]
    rcases h : o.hit ray t_min closest temp with ⟨b, temp'⟩
    cases b
    · simpa [h] using ih closest temp' rec
    · simpa [h] using ih _ temp' temp'

/-- A miss of the whole `HittableList::hit` loop leaves the caller's
record unchanged. -/
theorem HittableList.hitLoop_false_frame (ray : Ray) (t_min : ℚ) (l : List Sphere) :
    ∀ (closest : WithTop ℚ) (temp : HitRecord) (hb : Bool) (rec rec' : HitRecord),
      HittableList.hitLoop ray t_min l closest temp hb rec = (false, rec') → rec' = rec := by
  induction l with
  | nil =>
    intro closest temp hb rec rec' h
    simpa [HittableList.hitLoop, eq_comm] using congrArg Prod.snd h
  | cons o rest ih =>
    intro closest temp hb rec rec' h
    simp only [HittableList.hitLoop] at h
    rcases ho : o.hit ray t_min closest temp with ⟨b, temp'⟩
    rw [ho] at h
    cases b
    · exact ih closest temp' hb rec rec' (by simpa using h)
    · simp only [] at h
      have := HittableList.hitLoop_hb_true ray t_min rest (temp'.t : WithTop ℚ) temp' temp'
      rw [show HittableList.hitLoop ray t_min rest (temp'.t : WithTop ℚ) temp' true temp' =
            (false, rec') from by simpa using h] at this
      exact absurd this (by simp)

/-- Entering the `HittableList::hit` loop with `hit_anything` already
set and `record.t` at most `closest_so_far` yields a hit whose `t` never
exceeds that bound. -/
theorem HittableList.hitLoop_le (ray : Ray) (t_min : ℚ) (l : List Sphere) :
    ∀ (closest : WithTop ℚ) (temp rec : HitRecord), (rec.t : WithTop ℚ) ≤ closest →
      ∃ rec', HittableList.hitLoop ray t_min l closest temp true rec = (true, rec') ∧
        (rec'.t : WithTop ℚ) ≤ closest := by
  induction l with
  | nil =>
    intro closest temp rec hrec
    exact ⟨rec, rfl, hrec⟩
  | cons o rest ih =>
    intro closest temp rec hrec
    simp only [HittableList.hitLoop]
    rcases ho : o.hit ray t_min closest temp with ⟨b, temp'⟩
    cases b
    · simpa [ho] using ih closest temp' rec hrec
    · have hmem := Sphere.hit_t_mem ho
      obtain ⟨rec', h1, h2⟩ := ih (temp'.t : WithTop ℚ) temp' temp' le_rfl
      exact ⟨rec', by simpa [ho] using h1, le_trans h2 hmem.2⟩

/-- If some sphere of the list genuinely hits inside the full window,
the `HittableList::hit` loop reports a hit at most that far away. -/
theorem HittableList.hitLoop_find (ray : Ray) (t_min : ℚ) (tmax0 : WithTop ℚ)
    (s : Sphere) (R : HitRecord) (hs : s.hit ray t_min tmax0 default = (true, R))
    (l : List Sphere) :
    ∀ (closest : WithTop ℚ) (temp : HitRecord) (hb : Bool) (rec : HitRecord),
      s ∈ l → (hb = true → (rec.t : WithTop ℚ) = closest) →
      (hb = false → closest = tmax0) → closest ≤ tmax0 →
      ∃ rec', HittableList.hitLoop ray t_min l closest temp hb rec = (true, rec') ∧
        rec'.t ≤ R.t := by
  induction l with
  | nil =>
    intro closest temp hb rec hmem
    exact absurd hmem (List.not_mem_nil s)
  | cons o rest ih =>
    intro closest temp hb rec hmem hInv hInv2 hInv3
    rcases List.mem_cons.mp hmem with rfl | hmem'
    · by_cases hcl : (R.t : WithTop ℚ) ≤ closest
      · have hnarrow := Sphere.hit_narrow hs hcl
        have hstep : s.hit ray t_min closest temp = (true, R) :=
          Sphere.hit_indep temp hnarrow
        simp only [HittableList.hitLoop, hstep]
        obtain ⟨rec', h1, h2⟩ :=
          HittableList.hitLoop_le ray t_min rest (R.t : WithTop ℚ) R R le_rfl
        exact ⟨rec', by simpa using h1, WithTop.coe_le_coe.mp h2⟩
      · push_neg at hcl
        cases hb with
        | false =>
          rw [hInv2 rfl] at hcl
          exact absurd (Sphere.hit_t_mem hs).2 (not_le.mpr hcl)
        | true =>
          have hrec : (rec.t : WithTop ℚ) = closest := hInv rfl
          obtain ⟨rec', h1, h2⟩ :=
            HittableList.hitLoop_le ray t_min (s :: rest) closest temp rec (le_of_eq hrec)
          refine ⟨rec', h1, ?_⟩
          exact WithTop.coe_le_coe.mp (le_of_lt (lt_of_le_of_lt h2 hcl))
    · simp only [HittableList.hitLoop]
      rcases ho : o.hit ray t_min closest temp with ⟨b, temp'⟩
      cases b
      · simp only [cond_false, Bool.false_eq_true, if_false]
        exact ih closest temp' hb rec hmem' hInv hInv2 hInv3
      · simp only [cond_true, if_true]
        have hmemt := Sphere.hit_t_mem ho
        exact ih (temp'.t : WithTop ℚ) temp' true temp' hmem' (fun _ => rfl)
          (fun hcontra => absurd hcontra (by simp)) (le_trans hmemt.2 hInv3)

/-- Main linear-scan lemma: a genuine sphere hit inside the window makes
`HittableList::hit` report a hit at most that far away, from any
starting record. -/
theorem HittableList.hit_finds {ray : Ray} {t_min : ℚ} {t_max : WithTop ℚ}
    {s : Sphere} {R : HitRecord} {P : List Sphere}
    (hmem : s ∈ P) (hs : s.hit ray t_min t_max default = (true, R)) (rec0 : HitRecord) :
    ∃ recL, HittableList.hit P ray t_min t_max rec0 = (true, recL) ∧ recL.t ≤ R.t := by
  exact HittableList.hitLoop_find ray t_min t_max s R hs P t_max default false rec0 hmem
    (fun hcontra => absurd hcontra (by simp)) (fun _ => rfl) le_rfl

/-- A miss of `BVHNode::hit` leaves the caller's record unchanged. -/
theorem BVHTree.hit_miss_frame :
    ∀ (t : BVHTree Sphere) (ray : Ray) (t_min : ℚ) (t_max : WithTop ℚ)
      (rec rec' : HitRecord),
      BVHTree.hit Sphere.hit t ray t_min t_max rec = (false, rec') → rec' = rec := by
  intro t
  induction t with
  | prim a =>
    intro ray t_min t_max rec rec' h
    exact Sphere.hit_false_frame h
  | node l r box ihl ihr =>
    intro ray t_min t_max rec rec' h
    simp only [BVHTree.hit] at h
    by_cases hbox : box.hit ray t_min t_max = true
    · rw [if_neg (not_not_intro hbox)] at h
      rcases hl : BVHTree.hit Sphere.hit l ray t_min t_max rec with ⟨bl, rec1⟩
      rw [hl] at h
      rcases hr : BVHTree.hit Sphere.hit r ray t_min
          (if bl = true then (rec1.t : WithTop ℚ) else t_max) rec1 with ⟨br, rec2⟩
      rw [hr] at h
      injection h with h1 h2
      have hbl : bl = false := by cases bl <;> simp_all
      have hbr : br = false := by cases br <;> simp_all
      rw [hbl] at hl
      rw [hbr] at hr
      have e1 : rec1 = rec := ihl ray t_min t_max rec rec1 hl
      have e2 : rec2 = rec1 := ihr ray t_min _ rec1 rec2 hr
      rw [← h2, e2, e1]
    · rw [if_pos hbox] at h
      injection h with h1 h2
      exact h2.symm

/-- Every hit `BVHNode::hit` reports is genuine: some primitive stored
in the tree hits, inside the full query window, with exactly the
returned record. -/
theorem BVHTree.hit_genuine :
    ∀ (t : BVHTree Sphere) (ray : Ray) (t_min : ℚ) (t_max : WithTop ℚ)
      (rec R : HitRecord),
      BVHTree.hit Sphere.hit t ray t_min t_max rec = (true, R) →
      ∃ s ∈ t.prims, s.hit ray t_min t_max default = (true, R) := by
  intro t
  induction t with
  | prim a =>
    intro ray t_min t_max rec R h
    exact ⟨a, by simp [BVHTree.prims], Sphere.hit_indep default h⟩
  | node l r box ihl ihr =>
    intro ray t_min t_max rec R h
    simp only [BVHTree.hit] at h
    by_cases hbox : box.hit ray t_min t_max = true
    · rw [if_neg (not_not_intro hbox)] at h
      rcases hl : BVHTree.hit Sphere.hit l ray t_min t_max rec with ⟨bl, rec1⟩
      rw [hl] at h
      rcases hr : BVHTree.hit Sphere.hit r ray t_min
          (if bl = true then (rec1.t : WithTop ℚ) else t_max) rec1 with ⟨br, rec2⟩
      rw [hr] at h
      injection h with h1 h2
      replace h2 : rec2 = R := h2
      cases br with
      | true =>
        cases bl with
        | true =>
          obtain ⟨sl, hsl_mem, hsl⟩ := ihl ray t_min t_max rec rec1 hl
          have hbound := (Sphere.hit_t_mem hsl).2
          rw [if_pos rfl] at hr
          obtain ⟨sr, hsr_mem, hsr⟩ := ihr ray t_min _ rec1 rec2 hr
          refine ⟨sr, by simp [BVHTree.prims, hsr_mem], ?_⟩
          rw [h2] at hsr
          exact Sphere.hit_widen hsr hbound
        | false =>
          rw [if_neg (by simp)] at hr
          obtain ⟨sr, hsr_mem, hsr⟩ := ihr ray t_min t_max rec1 rec2 hr
          refine ⟨sr, by simp [BVHTree.prims, hsr_mem], ?_⟩
          rw [h2] at hsr
          exact hsr
      | false =>
        have hbl : bl = true := by cases bl <;> simp_all
        rw [hbl] at hl hr
        rw [if_pos rfl] at hr
        have e2 : rec2 = rec1 := BVHTree.hit_miss_frame r ray t_min _ rec1 rec2 hr
        obtain ⟨sl, hsl_mem, hsl⟩ := ihl ray t_min t_max rec rec1 hl
        refine ⟨sl, by simp [BVHTree.prims, hsl_mem], ?_⟩
        rw [← h2, e2]
        exact hsl
    · rw [if_pos hbox] at h
      exact absurd (congrArg Prod.fst h) (by simp)

theorem insertSorted_perm (le : α → α → Bool) (a : α) (l : List α) :
    (insertSorted le a l).Perm (a :: l) := by
  induction l with
  | nil => rfl
  | cons b l ih =>
    simp only [insertSorted]
    split_ifs
    · exact List.Perm.refl _
    · exact List.Perm.trans (List.Perm.cons b ih) (List.Perm.swap a b l)

theorem insertionSort_perm (le : α → α → Bool) (l : List α) :
    (insertionSort le l).Perm l := by
  induction l with
  | nil => rfl
  | cons a l ih =>
    exact List.Perm.trans (insertSorted_perm le a _) (List.Perm.cons a ih)

/-- Building over an empty span never returns: the C++ constructor
recurses forever, so every fuel bound is exhausted. -/
theorem BVHNode.build_nil_ne_ok (boxOf : α → Option AABB) (axs : ℕ → Fin 3) :
    ∀ (fuel n : ℕ), BVHNode.build boxOf axs fuel [] n = .error .outOfFuel := by
  intro fuel
  induction fuel with
  | zero => intro n; rfl
  | succ f ih =>
    intro n
    simp only [BVHNode.build, List.any_nil, if_false, Bool.false_eq_true, insertionSort,
      List.length_nil, Nat.zero_div, List.take_nil, ih]

/-- A successful build returns a permutation of the input sub-range, and
stores only input primitives at its leaves. -/
theorem BVHNode.build_perm {α : Type} (boxOf : α → Option AABB) (axs : ℕ → Fin 3) :
    ∀ (fuel : ℕ) (objects : List α) (n : ℕ) (tree : BVHTree α) (out : List α) (n' : ℕ),
      BVHNode.build boxOf axs fuel objects n = .ok (tree, out, n') →
      out.Perm objects ∧ ∀ s ∈ tree.prims, s ∈ objects := by
  intro fuel
  induction fuel with
  | zero =>
    intro objects n tree out n' h
    exact absurd h (by simp [BVHNode.build])
  | succ f ih =>
    intro objects n tree out n' h
    match objects with
    | [] =>
      rw [BVHNode.build_nil_ne_ok] at h
      exact absurd h (by simp)
    | [a] =>
      simp only [BVHNode.build, BVHTree.boundingBox] at h
      cases hba : boxOf a with
      | none => rw [hba] at h; exact absurd h (by simp)
      | some bb =>
        rw [hba] at h
        simp only [Except.ok.injEq, Prod.mk.injEq] at h
        obtain ⟨htree, hout, _⟩ := h
        constructor
        · rw [← hout]
        · intro s hs
          rw [← htree] at hs
          simp [BVHTree.prims] at hs
          simp [hs]
    | [a, b] =>
      simp only [BVHNode.build, BVHTree.boundingBox] at h
      cases hba : boxOf a with
      | none => rw [hba] at h; exact absurd h (by simp)
      | some bba =>
        cases hbb : boxOf b with
        | none => rw [hba, hbb] at h; exact absurd h (by simp)
        | some bbb =>
          rw [hba, hbb] at h
          dsimp only at h
          by_cases hcmp : axisComp bba.minimum (axs n) < axisComp bbb.minimum (axs n)
          · rw [if_pos hcmp] at h
            simp only [Except.ok.injEq, Prod.mk.injEq] at h
            obtain ⟨htree, hout, _⟩ := h
            constructor
            · rw [← hout]
            · intro s hs
              rw [← htree] at hs
              simp [BVHTree.prims] at hs
              rcases hs with hs | hs <;> simp [hs]
          · rw [if_neg hcmp] at h
            simp only [Except.ok.injEq, Prod.mk.injEq] at h
            obtain ⟨htree, hout, _⟩ := h
            constructor
            · rw [← hout]
            · intro s hs
              rw [← htree] at hs
              simp [BVHTree.prims] at hs
              rcases hs with hs | hs <;> simp [hs]
    | a :: b :: c :: rest =>
      simp only [BVHNode.build] at h
      by_cases hany : ((a :: b :: c :: rest).any fun o => (boxOf o).isNone) = true
      · rw [if_pos hany] at h
        exact absurd h (by simp)
      · rw [if_neg hany] at h
        rcases hleft : BVHNode.build boxOf axs f
            ((insertionSort (fun p q =>
              decide (boxMinOn boxOf (axs n) p < boxMinOn boxOf (axs n) q))
              (a :: b :: c :: rest)).take ((a :: b :: c :: rest).length / 2)) (n + 1)
          with eL | ⟨lt, ll, n1⟩
        · rw [hleft] at h
          dsimp only at h
          exact absurd h (by simp)
        · rw [hleft] at h
          dsimp only at h
          rcases hright : BVHNode.build boxOf axs f
              ((insertionSort (fun p q =>
                decide (boxMinOn boxOf (axs n) p < boxMinOn boxOf (axs n) q))
                (a :: b :: c :: rest)).drop ((a :: b :: c :: rest).length / 2)) n1
            with eR | ⟨rt, rl, n2⟩
          · rw [hright] at h
            dsimp only at h
            exact absurd h (by simp)
          · rw [hright] at h
            dsimp only at h
            cases hbl : lt.boundingBox boxOf with
            | none => rw [hbl] at h; exact absurd h (by simp)
            | some bl =>
              cases hbr : rt.boundingBox boxOf with
              | none => rw [hbl, hbr] at h; exact absurd h (by simp)
              | some br =>
                rw [hbl, hbr] at h
                simp only [Except.ok.injEq, Prod.mk.injEq] at h
                obtain ⟨htree, hout, _⟩ := h
                obtain ⟨ihl1, ihl2⟩ := ih _ _ _ _ _ hleft
                obtain ⟨ihr1, ihr2⟩ := ih _ _ _ _ _ hright
                have hsortperm : (insertionSort (fun p q =>
                    decide (boxMinOn boxOf (axs n) p < boxMinOn boxOf (axs n) q))
                    (a :: b :: c :: rest)).Perm (a :: b :: c :: rest) :=
                  insertionSort_perm _ _
                constructor
                · rw [← hout]
                  refine ((ihl1.append ihr1).trans ?_)
                  rw [List.take_append_drop]
                  exact hsortperm
                · intro s hs
                  rw [← htree] at hs
                  simp only [BVHTree.prims, List.mem_append] at hs
                  rcases hs with hs | hs
                  · exact hsortperm.mem_iff.mp (List.mem_of_mem_take (ihl2 s hs))
                  · exact hsortperm.mem_iff.mp (List.mem_of_mem_drop (ihr2 s hs))

/-- Every tree a successful build returns is an internal node (with a
cached box): even a single primitive is wrapped in a node aliasing it as
both children. -/
theorem BVHNode.build_ok_isNode {α : Type} (boxOf : α → Option AABB) (axs : ℕ → Fin 3) :
    ∀ (fuel : ℕ) (objects : List α) (n : ℕ) (tree : BVHTree α) (out : List α) (n' : ℕ),
      BVHNode.build boxOf axs fuel objects n = .ok (tree, out, n') →
      ∃ lt rt bb, tree = BVHTree.node lt rt bb := by
  intro fuel
  cases fuel with
  | zero =>
    intro objects n tree out n' h
    exact absurd h (by simp [BVHNode.build])
  | succ f =>
    intro objects n tree out n' h
    match objects with
    | [] =>
      rw [BVHNode.build_nil_ne_ok] at h
      exact absurd h (by simp)
    | [a] =>
      simp only [BVHNode.build, BVHTree.boundingBox] at h
      cases hba : boxOf a with
      | none => rw [hba] at h; exact absurd h (by simp)
      | some bb =>
        rw [hba] at h
        simp only [Except.ok.injEq, Prod.mk.injEq] at h
        exact ⟨_, _, _, h.1.symm⟩
    | [a, b] =>
      simp only [BVHNode.build, BVHTree.boundingBox] at h
      cases hba : boxOf a with
      | none => rw [hba] at h; exact absurd h (by simp)
      | some bba =>
        cases hbb : boxOf b with
        | none => rw [hba, hbb] at h; exact absurd h (by simp)
        | some bbb =>
          rw [hba, hbb] at h
          dsimp only at h
          by_cases hcmp : axisComp bba.minimum (axs n) < axisComp bbb.minimum (axs n)
          · rw [if_pos hcmp] at h
            simp only [Except.ok.injEq, Prod.mk.injEq] at h
            exact ⟨_, _, _, h.1.symm⟩
          · rw [if_neg hcmp] at h
            simp only [Except.ok.injEq, Prod.mk.injEq] at h
            exact ⟨_, _, _, h.1.symm⟩
    | a :: b :: c :: rest =>
      simp only [BVHNode.build] at h
      by_cases hany : ((a :: b :: c :: rest).any fun o => (boxOf o).isNone) = true
      · rw [if_pos hany] at h
        exact absurd h (by simp)
      · rw [if_neg hany] at h
        rcases hleft : BVHNode.build boxOf axs f
            ((insertionSort (fun p q =>
              decide (boxMinOn boxOf (axs n) p < boxMinOn boxOf (axs n) q))
              (a :: b :: c :: rest)).take ((a :: b :: c :: rest).length / 2)) (n + 1)
          with eL | ⟨lt, ll, n1⟩ <;> rw [hleft] at h <;> dsimp only at h
        · exact absurd h (by simp)
        · rcases hright : BVHNode.build boxOf axs f
              ((insertionSort (fun p q =>
                decide (boxMinOn boxOf (axs n) p < boxMinOn boxOf (axs n) q))
                (a :: b :: c :: rest)).drop ((a :: b :: c :: rest).length / 2)) n1
            with eR | ⟨rt, rl, n2⟩ <;> rw [hright] at h <;> dsimp only at h
          · exact absurd h (by simp)
          · cases hbl : lt.boundingBox boxOf with
            | none => rw [hbl] at h; exact absurd h (by simp)
            | some bl =>
              cases hbr : rt.boundingBox boxOf with
              | none => rw [hbl, hbr] at h; exact absurd h (by simp)
              | some br =>
                rw [hbl, hbr] at h
                simp only [Except.ok.injEq, Prod.mk.injEq] at h
                exact ⟨_, _, _, h.1.symm⟩

/-- When every primitive of a non-empty span has a bounding box and the
fuel covers the span length, the build succeeds. -/
theorem BVHNode.build_all_some_ok {α : Type} (boxOf : α → Option AABB) (axs : ℕ → Fin 3) :
    ∀ (fuel : ℕ) (objects : List α) (n : ℕ), objects ≠ [] → objects.length ≤ fuel →
      (∀ p ∈ objects, (boxOf p).isSome) →
      ∃ out, BVHNode.build boxOf axs fuel objects n = .ok out := by
  intro fuel
  induction fuel with
  | zero =>
    intro objects n hne hlen _
    exact absurd (List.length_eq_zero.mp (Nat.le_zero.mp hlen)) hne
  | succ f ih =>
    intro objects n hne hlen hsome
    match objects with
    | [] => exact absurd rfl hne
    | [a] =>
      obtain ⟨bb, hbb⟩ := Option.isSome_iff_exists.mp (hsome a (by simp))
      exact ⟨((BVHTree.prim a).node (BVHTree.prim a) (bb.surrounding_box bb), [a], n + 1),
        by simp only [BVHNode.build, BVHTree.boundingBox, hbb]⟩
    | [a, b] =>
      obtain ⟨bba, hba⟩ := Option.isSome_iff_exists.mp (hsome a (by simp))
      obtain ⟨bbb, hbb⟩ := Option.isSome_iff_exists.mp (hsome b (by simp))
      by_cases hcmp : axisComp bba.minimum (axs n) < axisComp bbb.minimum (axs n)
      · refine ⟨((BVHTree.prim a).node (BVHTree.prim b) (bba.surrounding_box bbb),
          [a, b], n + 1), ?_⟩
        simp only [BVHNode.build, BVHTree.boundingBox, hba, hbb]
        rw [if_pos hcmp]
      · refine ⟨((BVHTree.prim b).node (BVHTree.prim a) (bbb.surrounding_box bba),
          [a, b], n + 1), ?_⟩
        simp only [BVHNode.build, BVHTree.boundingBox, hba, hbb]
        rw [if_neg hcmp]
    | a :: b :: c :: rest =>
      have hsortperm : (insertionSort (fun p q =>
          decide (boxMinOn boxOf (axs n) p < boxMinOn boxOf (axs n) q))
          (a :: b :: c :: rest)).Perm (a :: b :: c :: rest) := insertionSort_perm _ _
      have hslen : (insertionSort (fun p q =>
          decide (boxMinOn boxOf (axs n) p < boxMinOn boxOf (axs n) q))
          (a :: b :: c :: rest)).length = (a :: b :: c :: rest).length :=
        hsortperm.length_eq
      have hany : ((a :: b :: c :: rest).any fun o => (boxOf o).isNone) = false := by
        rw [List.any_eq_false]
        intro x hx
        rcases Option.isSome_iff_exists.mp (hsome x hx) with ⟨w, hw⟩
        simp [hw]
      have hlen3 : 3 ≤ (a :: b :: c :: rest).length := by
        simp only [List.length_cons]
        omega
      have hmid_lt : (a :: b :: c :: rest).length / 2 < (a :: b :: c :: rest).length := by
        omega
      have hmid_pos : 1 ≤ (a :: b :: c :: rest).length / 2 := by omega
      have htake_len : ((insertionSort (fun p q =>
          decide (boxMinOn boxOf (axs n) p < boxMinOn boxOf (axs n) q))
          (a :: b :: c :: rest)).take ((a :: b :: c :: rest).length / 2)).length =
          (a :: b :: c :: rest).length / 2 := by
        rw [List.length_take, hslen]
        omega
      have hdrop_len : ((insertionSort (fun p q =>
          decide (boxMinOn boxOf (axs n) p < boxMinOn boxOf (axs n) q))
          (a :: b :: c :: rest)).drop ((a :: b :: c :: rest).length / 2)).length =
          (a :: b :: c :: rest).length - (a :: b :: c :: rest).length / 2 := by
        rw [List.length_drop, hslen]
      obtain ⟨⟨lt, ll, n1⟩, hleft⟩ := ih
        ((insertionSort (fun p q =>
          decide (boxMinOn boxOf (axs n) p < boxMinOn boxOf (axs n) q))
          (a :: b :: c :: rest)).take ((a :: b :: c :: rest).length / 2)) (n + 1)
        (by
          intro hnil
          rw [hnil] at htake_len
          simp at htake_len
          omega)
        (by rw [htake_len]; omega)
        (by
          intro p hp
          exact hsome p (hsortperm.mem_iff.mp (List.mem_of_mem_take hp)))
      obtain ⟨⟨rt, rl, n2⟩, hright⟩ := ih
        ((insertionSort (fun p q =>
          decide (boxMinOn boxOf (axs n) p < boxMinOn boxOf (axs n) q))
          (a :: b :: c :: rest)).drop ((a :: b :: c :: rest).length / 2)) n1
        (by
          intro hnil
          rw [hnil] at hdrop_len
          simp at hdrop_len
          omega)
        (by rw [hdrop_len]; omega)
        (by
          intro p hp
          exact hsome p (hsortperm.mem_iff.mp (List.mem_of_mem_drop hp)))
      obtain ⟨lt1, lt2, lbb, hltn⟩ := BVHNode.build_ok_isNode boxOf axs _ _ _ _ _ _ hleft
      obtain ⟨rt1, rt2, rbb, hrtn⟩ := BVHNode.build_ok_isNode boxOf axs _ _ _ _ _ _ hright
      refine ⟨(lt.node rt (lbb.surrounding_box rbb), ll ++ rl, n2), ?_⟩
      simp only [BVHNode.build]
      rw [if_neg (by simp [hany])]
      rw [hleft]
      dsimp only
      rw [hright]
      dsimp only
      rw [hltn, hrtn]
      rfl

/-- When some primitive of a non-empty span has no bounding box, the
build raises the `noBox` error (the throwing comparator / constructor
check). -/
theorem BVHNode.build_noBox_of_exists {α : Type} (boxOf : α → Option AABB) (axs : ℕ → Fin 3)
    (f : ℕ) (objects : List α) (n : ℕ)
    (hex : ∃ p ∈ objects, boxOf p = none) :
    BVHNode.build boxOf axs (f + 1) objects n = .error .noBox := by
  obtain ⟨p, hp, hpnone⟩ := hex
  match objects with
  | [] => exact absurd hp (List.not_mem_nil p)
  | [a] =>
    have ha : boxOf a = none := by
      rcases List.mem_singleton.mp hp with rfl
      exact hpnone
    simp only [BVHNode.build, BVHTree.boundingBox, ha]
  | [a, b] =>
    simp only [BVHNode.build, BVHTree.boundingBox]
    rcases List.mem_pair.mp hp with rfl | rfl
    · rw [hpnone]
    · rw [hpnone]
      cases boxOf a <;> rfl
  | a :: b :: c :: rest =>
    have hany : ((a :: b :: c :: rest).any fun o => (boxOf o).isNone) = true := by
      rw [List.any_eq_true]
      exact ⟨p, hp, by simp [hpnone]⟩
    simp only [BVHNode.build]
    rw [if_pos (by simp [hany])]

theorem Vec3.dot_sq_le (a b : Vec3) :
    a.dot b * a.dot b ≤ a.length_squared * b.length_squared := by
  unfold Vec3.dot Vec3.length_squared
  nlinarith [sq_nonneg (a.x * b.y - a.y * b.x), sq_nonneg (a.x * b.z - a.z * b.x),
    sq_nonneg (a.y * b.z - a.z * b.y)]

theorem ratSqrt_le_one {q : ℚ} (h1 : q ≤ 1) : ratSqrt q ≤ 1 := by
  unfold ratSqrt
  have hdenpos : (0 : ℚ) < (q.den : ℚ) := by
    exact_mod_cast q.den_pos
  have hnumq : (q.num : ℚ) = q * (q.den : ℚ) :=
    (div_eq_iff (ne_of_gt hdenpos)).mp (Rat.num_div_den q)
  have hnum_le : q.num ≤ (q.den : ℤ) := by
    have hcast : (q.num : ℚ) ≤ (q.den : ℚ) := by
      rw [hnumq]
      calc q * (q.den : ℚ) ≤ 1 * (q.den : ℚ) :=
            mul_le_mul_of_nonneg_right h1 (le_of_lt hdenpos)
        _ = (q.den : ℚ) := one_mul _
    exact_mod_cast hcast
  have htoNat : q.num.toNat ≤ q.den := Int.toNat_le.mpr hnum_le
  have hsqrt : Nat.sqrt q.num.toNat ≤ Nat.sqrt q.den := Nat.sqrt_le_sqrt htoNat
  have hsden : 0 < Nat.sqrt q.den := Nat.sqrt_pos.mpr q.den_pos
  rw [div_le_one (by exact_mod_cast hsden)]
  exact_mod_cast hsqrt

theorem Vec3.add_def (a b : Vec3) : a + b = ⟨a.x + b.x, a.y + b.y, a.z + b.z⟩ := rfl

theorem Vec3.sub_def (a b : Vec3) : a - b = ⟨a.x - b.x, a.y - b.y, a.z - b.z⟩ := rfl

theorem Vec3.neg_def (a : Vec3) : -a = ⟨-a.x, -a.y, -a.z⟩ := rfl

theorem Vec3.smul_def (t : ℚ) (v : Vec3) : t * v = ⟨v.x * t, v.y * t, v.z * t⟩ := rfl

theorem Vec3.mul_scalar_def (v : Vec3) (t : ℚ) : v * t = ⟨v.x * t, v.y * t, v.z * t⟩ := rfl

theorem Vec3.hadamard_def (a b : Vec3) :
    a * b = ⟨a.x * b.x, a.y * b.y, a.z * b.z⟩ := rfl

theorem Vec3.div_def (v : Vec3) (t : ℚ) :
    v / t = ⟨v.x * (1 / t), v.y * (1 / t), v.z * (1 / t)⟩ := rfl

/-- When incoming direction and normal are unit vectors with the
direction opposing the normal, `refract` with ratio 1 is the identity on
the direction. -/
theorem refract_ratio_one (u n : Vec3) (hu : u.length_squared = 1)
    (hn : n.length_squared = 1) (hopp : u.dot n ≤ 0) : refract u n 1 = u := by
  have hcs : u.dot n * u.dot n ≤ 1 := by
    have h := Vec3.dot_sq_le u n
    rw [hu, hn] at h
    linarith
  have hle1 : -(u.dot n) ≤ 1 := by nlinarith
  have hc0 : 0 ≤ -(u.dot n) := by linarith
  unfold refract
  rw [min_eq_left hle1]
  show (1 : ℚ) * (u + -(u.dot n) * n) +
      -(ratSqrt |1 - ((1 : ℚ) * (u + -(u.dot n) * n)).length_squared|) * n = u
  have hperp : 1 - ((1 : ℚ) * (u + -(u.dot n) * n)).length_squared =
      -(u.dot n) * -(u.dot n) := by
    obtain ⟨ux, uy, uz⟩ := u
    obtain ⟨nx, ny, nz⟩ := n
    simp only [Vec3.dot, Vec3.smul_def, Vec3.add_def, Vec3.length_squared] at *
    linear_combination (-1 : ℚ) * hu -
      ((ux * nx + uy * ny + uz * nz) * (ux * nx + uy * ny + uz * nz)) * hn
  rw [hperp, abs_of_nonneg (mul_nonneg hc0 hc0), ratSqrt_mul_self _ hc0]
  obtain ⟨ux, uy, uz⟩ := u
  obtain ⟨nx, ny, nz⟩ := n
  simp only [Vec3.dot, Vec3.smul_def, Vec3.add_def, Vec3.mk.injEq]
  refine ⟨by ring, by ring, by ring⟩

/-- Normalizing a direction whose squared length is an exact nonzero
square produces a unit vector. -/
theorem Vec3.unit_vector_length_squared {d : Vec3}
    (hex : ratSqrt d.length_squared * ratSqrt d.length_squared = d.length_squared)
    (hne : d.length_squared ≠ 0) : d.unit_vector.length_squared = 1 := by
  have hr0 : ratSqrt d.length_squared ≠ 0 := by
    intro h
    rw [h, mul_zero] at hex
    exact hne hex.symm
  obtain ⟨dx, dy, dz⟩ := d
  simp only [Vec3.unit_vector, Vec3.length, Vec3.div_def, Vec3.length_squared] at *
  field_simp
  linarith [hex]

theorem vec_zero_add_ones_mul (v : Vec3) :
    (⟨0, 0, 0⟩ : Vec3) + (⟨1, 1, 1⟩ : Vec3) * v = v := by
  obtain ⟨x, y, z⟩ := v
  simp only [Vec3.hadamard_def, Vec3.add_def, Vec3.mk.injEq]
  norm_num

/-! Claim theorems. -/

/-- C2: every sphere's `boundingBox()` succeeds and returns the
axis-aligned box with minimum corner `center − (r,r,r)` and maximum
corner `center + (r,r,r)` — center ± radius on every axis.  (The
operation itself is spec-modelled: `Sphere::bounding_box` is absent from
`src/`, only its callers appear there.) -/
theorem C2_sphere_bounding_box (s : Sphere) :
    ∃ box, s.bounding_box = some box ∧
      box.minimum = s.center - ⟨s.radius, s.radius, s.radius⟩ ∧
      box.maximum = s.center + ⟨s.radius, s.radius, s.radius⟩ :=
  ⟨_, rfl, rfl, rfl⟩

/-- C3 counterexample: `Metal(albedo, -1)` stores `fuzziness = -1`,
which is negative — the constructor's `fuzziness < 1 ? fuzziness : 1`
clamps from above only, refuting "the stored fuzz ... is never
negative". -/
theorem C3_counterexample :
    (Metal.make ⟨0, 0, 0⟩ (-1)).fuzziness = -1 ∧
      ¬(0 ≤ (Metal.make ⟨0, 0, 0⟩ (-1)).fuzziness) := by
  decide

/-- C3 (amended): the `Metal` constructor stores `min(fuzz, 1)`: the
stored fuzz never exceeds 1, but a negative argument is stored
unchanged (no clamp from below). -/
theorem C3_metal_fuzz_min (albedo : Color) (f : ℚ) :
    (Metal.make albedo f).fuzziness = min f 1 ∧
      (Metal.make albedo f).fuzziness ≤ 1 ∧
      (Metal.make albedo f).albedo = albedo := by
  refine ⟨?_, ?_, rfl⟩
  · show (if f < 1 then f else 1) = min f 1
    split_ifs with h
    · exact (min_eq_left h.le).symm
    · exact (min_eq_right (not_lt.mp h)).symm
  · show (if f < 1 then f else 1) ≤ 1
    split_ifs with h
    · exact h.le
    · exact le_rfl

/-- C5: `ray_color` with `max_depth = 0` returns pure black for every
scene, and more generally whenever the bounce loop runs out of
remaining depth it returns pure black regardless of the accumulated
attenuation and emitted light. -/
theorem C5_depth_exhaustion_black {σ : Type}
    (worldHit : Ray → ℚ → WithTop ℚ → HitRecord → Bool × HitRecord)
    (emitted : HitRecord → Color)
    (scatter : Ray → HitRecord → σ → Option (Color × Ray) × σ) :
    (∀ (ray : Ray) (rng : σ),
      ray_color worldHit emitted scatter ray 0 rng = ⟨0, 0, 0⟩) ∧
    (∀ (cur : Ray) (att emit : Color) (rng : σ),
      rayColorLoop worldHit emitted scatter 0 cur att emit rng = ⟨0, 0, 0⟩) :=
  ⟨fun _ _ => rfl, fun _ _ _ _ => rfl⟩

/-- C6: a ray whose first world query reports a miss makes `ray_color`
(with at least one permitted bounce) return exactly the background
vertical-gradient value, with no material contribution. -/
theorem C6_background_on_miss {σ : Type}
    (worldHit : Ray → ℚ → WithTop ℚ → HitRecord → Bool × HitRecord)
    (emitted : HitRecord → Color)
    (scatter : Ray → HitRecord → σ → Option (Color × Ray) × σ)
    (r : Ray) (depth : ℕ) (rng : σ)
    (hdepth : 1 ≤ depth)
    (hmiss : (worldHit r (1 / 1000) ⊤ default).1 = false) :
    ray_color worldHit emitted scatter r depth rng = skyColor r := by
  obtain ⟨d, rfl⟩ : ∃ d, depth = d + 1 := ⟨depth - 1, by omega⟩
  unfold ray_color
  simp only [rayColorLoop, hmiss]
  rw [if_neg (by simp)]
  show (⟨0, 0, 0⟩ : Color) + (⟨1, 1, 1⟩ : Color) * _ = skyColor r
  rw [vec_zero_add_ones_mul]
  rfl

/-- C6 witness: an empty scene misses every ray; a downward-facing ray
from the origin receives exactly the background gradient. -/
theorem C6_background_on_miss_witness :
    ray_color (HittableList.hit []) (fun _ => ⟨0, 0, 0⟩)
      (fun _ _ (u : Unit) => (none, u)) ⟨⟨0, 0, 0⟩, ⟨0, 0, -1⟩⟩ 1 () =
      skyColor ⟨⟨0, 0, 0⟩, ⟨0, 0, -1⟩⟩ :=
  C6_background_on_miss (HittableList.hit []) (fun _ => ⟨0, 0, 0⟩)
    (fun _ _ u => (none, u)) ⟨⟨0, 0, 0⟩, ⟨0, 0, -1⟩⟩ 1 () (by decide) (by decide)

theorem Vec3.dot_neg (a b : Vec3) : a.dot (-b) = -(a.dot b) := by
  obtain ⟨ax, ay, az⟩ := a
  obtain ⟨bx, by', bz⟩ := b
  simp only [Vec3.dot, Vec3.neg_def]
  ring

theorem Sphere.hit_true_writeRec {s : Sphere} {ray : Ray} {t_min : ℚ} {t_max : WithTop ℚ}
    {rec R : HitRecord} (h : s.hit ray t_min t_max rec = (true, R)) :
    ∃ root, R = s.writeRec ray root rec := by
  rw [Sphere.hit_unfold] at h
  split_ifs at h
  · exact absurd h (by simp)
  · exact absurd h (by simp)
  · injection h with h1 h2
    exact ⟨_, h2.symm⟩
  · injection h with h1 h2
    exact ⟨_, h2.symm⟩

/-- C8: every successful sphere intersection stores a record whose
`front_face` flag is set exactly when the ray direction and the outward
normal `(point − center)/radius` have negative dot product, whose
stored normal is the outward normal under that flag and its negation
otherwise, and whose stored normal never has positive dot product with
the ray direction. -/
theorem C8_face_normal (s : Sphere) (ray : Ray) (t_min : ℚ) (t_max : WithTop ℚ)
    (rec0 R : HitRecord) (h : s.hit ray t_min t_max rec0 = (true, R)) :
    (R.front_face = true ↔ ray.direction.dot ((R.point - s.center) / s.radius) < 0) ∧
    R.normal = (if ray.direction.dot ((R.point - s.center) / s.radius) < 0
      then (R.point - s.center) / s.radius else -((R.point - s.center) / s.radius)) ∧
    ray.direction.dot R.normal ≤ 0 := by
  obtain ⟨root, rfl⟩ := Sphere.hit_true_writeRec h
  have hpoint : (s.writeRec ray root rec0).point = ray.at root := rfl
  have hff : (s.writeRec ray root rec0).front_face =
      decide (ray.direction.dot ((ray.at root - s.center) / s.radius) < 0) := rfl
  have hnormal : (s.writeRec ray root rec0).normal =
      (if decide (ray.direction.dot ((ray.at root - s.center) / s.radius) < 0) = true
       then (ray.at root - s.center) / s.radius
       else -((ray.at root - s.center) / s.radius)) := rfl
  rw [hpoint]
  refine ⟨?_, ?_, ?_⟩
  · rw [hff]
    exact decide_eq_true_iff
  · rw [hnormal]
    by_cases hd : ray.direction.dot ((ray.at root - s.center) / s.radius) < 0 <;> simp [hd]
  · rw [hnormal]
    simp only [decide_eq_true_eq]
    by_cases hd : ray.direction.dot ((ray.at root - s.center) / s.radius) < 0
    · rw [if_pos hd]
      exact hd.le
    · rw [if_neg hd]
      rw [Vec3.dot_neg]
      linarith [not_lt.mp hd]

theorem ratSqrt_one : ratSqrt (1 : ℚ) = 1 := by
  have h := ratSqrt_mul_self (1 : ℚ) (by norm_num)
  rwa [mul_one] at h

/-- C1 counterexample: a single unit sphere at the origin, the ray from
`(-2,-1,-1)` along `(1,1,1)`, and the window `[1/1000, 1]`.  The ray
hits the sphere at exactly `t = 1` (on the window's upper edge, at the
point `(-1,0,0)` of the bounding box's boundary): the linear scan
reports the hit, but the BVH's slab test rejects the box
(`t_max <= t_min` after clamping) and reports a miss. -/
theorem C1_counterexample :
    (HittableList.hit [⟨⟨0, 0, 0⟩, 1, 7⟩] ⟨⟨-2, -1, -1⟩, ⟨1, 1, 1⟩⟩ (1 / 1000)
        ((1 : ℚ) : WithTop ℚ) default).1 = true ∧
    BVHNode.build Sphere.bounding_box (fun _ => 0) 1 [⟨⟨0, 0, 0⟩, 1, 7⟩] 0 =
      .ok (.node (.prim ⟨⟨0, 0, 0⟩, 1, 7⟩) (.prim ⟨⟨0, 0, 0⟩, 1, 7⟩)
        ⟨⟨-1, -1, -1⟩, ⟨1, 1, 1⟩⟩, [⟨⟨0, 0, 0⟩, 1, 7⟩], 1) ∧
    (BVHTree.hit Sphere.hit (.node (.prim ⟨⟨0, 0, 0⟩, 1, 7⟩) (.prim ⟨⟨0, 0, 0⟩, 1, 7⟩)
        ⟨⟨-1, -1, -1⟩, ⟨1, 1, 1⟩⟩) ⟨⟨-2, -1, -1⟩, ⟨1, 1, 1⟩⟩ (1 / 1000)
        ((1 : ℚ) : WithTop ℚ) default).1 = false := by
  have hsph : Sphere.hit ⟨⟨0, 0, 0⟩, 1, 7⟩ ⟨⟨-2, -1, -1⟩, ⟨1, 1, 1⟩⟩ (1 / 1000)
      ((1 : ℚ) : WithTop ℚ) default = (true, ⟨⟨-1, 0, 0⟩, ⟨-1, 0, 0⟩, 1, true, 7⟩) := by
    have hdisc : sphDisc ⟨⟨0, 0, 0⟩, 1, 7⟩ ⟨⟨-2, -1, -1⟩, ⟨1, 1, 1⟩⟩ = 1 := by
      norm_num [sphDisc, sphHalfB, sphA, Vec3.dot, Vec3.length_squared, Vec3.sub_def]
    have hr1 : sphRoot1 ⟨⟨0, 0, 0⟩, 1, 7⟩ ⟨⟨-2, -1, -1⟩, ⟨1, 1, 1⟩⟩ = 1 := by
      simp only [sphRoot1, hdisc, ratSqrt_one]
      norm_num [sphHalfB, sphA, Vec3.dot, Vec3.length_squared, Vec3.sub_def]
    rw [Sphere.hit_unfold, hdisc, hr1]
    rw [if_neg (by norm_num)]
    rw [if_neg (by
      rw [not_or, not_lt, not_lt]
      exact ⟨by norm_num, by exact_mod_cast (by norm_num : (1 : ℚ) ≤ 1)⟩)]
    refine Prod.ext rfl ?_
    show Sphere.writeRec _ _ 1 default = _
    simp only [Sphere.writeRec, HitRecord.set_face_normal, Ray.at, Vec3.smul_def,
      Vec3.add_def, Vec3.sub_def, Vec3.div_def, Vec3.dot]
    norm_num
  refine ⟨?_, ?_, ?_⟩
  · simp only [HittableList.hit, HittableList.hitLoop, hsph]
    simp
  · have hbox : Sphere.bounding_box ⟨⟨0, 0, 0⟩, 1, 7⟩ =
        some ⟨⟨-1, -1, -1⟩, ⟨1, 1, 1⟩⟩ := by
      simp only [Sphere.bounding_box, Vec3.sub_def, Vec3.add_def]
      norm_num
    simp only [BVHNode.build, BVHTree.boundingBox, hbox, AABB.surrounding_box]
    norm_num
  · have hslab : slabStep ⟨⟨-1, -1, -1⟩, ⟨1, 1, 1⟩⟩ ⟨⟨-2, -1, -1⟩, ⟨1, 1, 1⟩⟩ 0 (1 / 1000)
        ((1 : ℚ) : WithTop ℚ) = none := by
      simp only [slabStep, axisComp]
      norm_num
    have hbhit : AABB.hit ⟨⟨-1, -1, -1⟩, ⟨1, 1, 1⟩⟩ ⟨⟨-2, -1, -1⟩, ⟨1, 1, 1⟩⟩ (1 / 1000)
        ((1 : ℚ) : WithTop ℚ) = false := by
      simp only [AABB.hit, hslab]
    simp only [BVHTree.hit, hbhit]
    norm_num

/-- A finite (coerced) upper bound keeps the slab computation entirely
rational: helper for evaluating `AABB::hit` at concrete inputs. -/
theorem slabStep_coe (box : AABB) (r : Ray) (a : Fin 3) (t_min t_max : ℚ) :
    slabStep box r a t_min ((t_max : ℚ) : WithTop ℚ) =
      (let invD := 1 / axisComp r.direction a
       let t0 := (axisComp box.minimum a - axisComp r.origin a) * invD
       let t1 := (axisComp box.maximum a - axisComp r.origin a) * invD
       let p : ℚ × ℚ := if invD < 0 then (t1, t0) else (t0, t1)
       let t_min' := if p.1 > t_min then p.1 else t_min
       let t_max' := if p.2 < t_max then p.2 else t_max
       if t_max' ≤ t_min' then none else some (t_min', ((t_max' : ℚ) : WithTop ℚ))) := by
  simp only [slabStep, WithTop.coe_lt_coe, WithTop.coe_le_coe,
    ← apply_ite (fun q : ℚ => ((q : ℚ) : WithTop ℚ))]

theorem axisComp_zero (v : Vec3) : axisComp v 0 = v.x := rfl

theorem axisComp_one (v : Vec3) : axisComp v 1 = v.y := by
  unfold axisComp
  rw [if_neg (by decide), if_pos rfl]

theorem axisComp_two (v : Vec3) : axisComp v 2 = v.z := by
  unfold axisComp
  rw [if_neg (by decide), if_neg (by decide)]

/-- C1 (amended): acceleration is sound but not boundary-exact.  Every
hit the BVH built from `P` reports is genuine: the linear scan over `P`
restricted to the same `[tMin, tMax]` also reports a hit, and the
scan's closest-hit `t` is at most the BVH's reported `t`.  The converse
(and equality of `t` and of the full hit record) can fail when a hit
lies exactly on a bounding-box slab boundary at the window's edge, or
when two primitives tie at the same `t`. -/
theorem C1_bvh_hit_sound_for_scan (axs : ℕ → Fin 3) (fuel : ℕ) (P : List Sphere) (n : ℕ)
    (tree : BVHTree Sphere) (out : List Sphere) (n' : ℕ) (ray : Ray) (t_min : ℚ)
    (t_max : WithTop ℚ) (rec0 rec1 R : HitRecord)
    (hbuild : BVHNode.build Sphere.bounding_box axs fuel P n = .ok (tree, out, n'))
    (hhit : BVHTree.hit Sphere.hit tree ray t_min t_max rec0 = (true, R)) :
    ∃ recL, HittableList.hit P ray t_min t_max rec1 = (true, recL) ∧ recL.t ≤ R.t := by
  obtain ⟨s, hmem, hs⟩ := BVHTree.hit_genuine tree ray t_min t_max rec0 R hhit
  have hmemP : s ∈ P :=
    (BVHNode.build_perm Sphere.bounding_box axs fuel P n tree out n' hbuild).2 s hmem
  exact HittableList.hit_finds hmemP hs rec1

/-- C1 witness: a sphere of radius 3 at `(4,2,4)`, hit from the origin
along `(2,1,2)` at `t = 1`; the BVH finds the hit and the linear scan's
hit is at most as far. -/
theorem C1_bvh_hit_sound_for_scan_witness :
    ∃ recL, HittableList.hit [⟨⟨4, 2, 4⟩, 3, 5⟩] ⟨⟨0, 0, 0⟩, ⟨2, 1, 2⟩⟩ (1 / 1000)
      ((10 : ℚ) : WithTop ℚ) default = (true, recL) ∧
      recL.t ≤ (⟨⟨2, 1, 2⟩, ⟨-2/3, -1/3, -2/3⟩, 1, true, 5⟩ : HitRecord).t := by
  have hbox : Sphere.bounding_box ⟨⟨4, 2, 4⟩, 3, 5⟩ =
      some ⟨⟨1, -1, 1⟩, ⟨7, 5, 7⟩⟩ := by
    simp only [Sphere.bounding_box, Vec3.sub_def, Vec3.add_def]
    norm_num
  have hbuild : BVHNode.build Sphere.bounding_box (fun _ => 0) 1 [⟨⟨4, 2, 4⟩, 3, 5⟩] 0 =
      .ok (.node (.prim ⟨⟨4, 2, 4⟩, 3, 5⟩) (.prim ⟨⟨4, 2, 4⟩, 3, 5⟩)
        ⟨⟨1, -1, 1⟩, ⟨7, 5, 7⟩⟩, [⟨⟨4, 2, 4⟩, 3, 5⟩], 1) := by
    simp only [BVHNode.build, BVHTree.boundingBox, hbox, AABB.surrounding_box]
    norm_num
  have hdisc : sphDisc ⟨⟨4, 2, 4⟩, 3, 5⟩ ⟨⟨0, 0, 0⟩, ⟨2, 1, 2⟩⟩ = 81 := by
    norm_num [sphDisc, sphHalfB, sphA, Vec3.dot, Vec3.length_squared, Vec3.sub_def]
  have hsq81 : ratSqrt (81 : ℚ) = 9 := by
    have h := ratSqrt_mul_self (9 : ℚ) (by norm_num)
    rw [show (9 : ℚ) * 9 = 81 by norm_num] at h
    exact h
  have hr1 : sphRoot1 ⟨⟨4, 2, 4⟩, 3, 5⟩ ⟨⟨0, 0, 0⟩, ⟨2, 1, 2⟩⟩ = 1 := by
    simp only [sphRoot1, hdisc, hsq81]
    norm_num [sphHalfB, sphA, Vec3.dot, Vec3.length_squared, Vec3.sub_def]
  have hsph : ∀ (tmax : WithTop ℚ) (rec : HitRecord),
      ((1 : ℚ) : WithTop ℚ) ≤ tmax →
      Sphere.hit ⟨⟨4, 2, 4⟩, 3, 5⟩ ⟨⟨0, 0, 0⟩, ⟨2, 1, 2⟩⟩ (1 / 1000) tmax rec =
        (true, ⟨⟨2, 1, 2⟩, ⟨-2/3, -1/3, -2/3⟩, 1, true, 5⟩) := by
    intro tmax rec htm
    rw [Sphere.hit_unfold, hdisc, hr1]
    rw [if_neg (by norm_num)]
    rw [if_neg (by
      rw [not_or, not_lt, not_lt]
      exact ⟨by norm_num, htm⟩)]
    refine Prod.ext rfl ?_
    show Sphere.writeRec _ _ 1 rec = _
    simp only [Sphere.writeRec, HitRecord.set_face_normal, Ray.at, Vec3.smul_def,
      Vec3.add_def, Vec3.sub_def, Vec3.div_def, Vec3.dot]
    norm_num
  have hbhit : AABB.hit ⟨⟨1, -1, 1⟩, ⟨7, 5, 7⟩⟩ ⟨⟨0, 0, 0⟩, ⟨2, 1, 2⟩⟩ (1 / 1000)
      ((10 : ℚ) : WithTop ℚ) = true := by
    have h0 : slabStep ⟨⟨1, -1, 1⟩, ⟨7, 5, 7⟩⟩ ⟨⟨0, 0, 0⟩, ⟨2, 1, 2⟩⟩ 0 (1 / 1000)
        ((10 : ℚ) : WithTop ℚ) = some (1/2, ((7/2 : ℚ) : WithTop ℚ)) := by
      rw [slabStep_coe]
      norm_num [axisComp]
    have h1 : slabStep ⟨⟨1, -1, 1⟩, ⟨7, 5, 7⟩⟩ ⟨⟨0, 0, 0⟩, ⟨2, 1, 2⟩⟩ 1 (1/2)
        ((7/2 : ℚ) : WithTop ℚ) = some (1/2, ((7/2 : ℚ) : WithTop ℚ)) := by
      rw [slabStep_coe]
      norm_num [axisComp]
    have h2 : slabStep ⟨⟨1, -1, 1⟩, ⟨7, 5, 7⟩⟩ ⟨⟨0, 0, 0⟩, ⟨2, 1, 2⟩⟩ 2 (1/2)
        ((7/2 : ℚ) : WithTop ℚ) = some (1/2, ((7/2 : ℚ) : WithTop ℚ)) := by
      rw [slabStep_coe]
      norm_num [axisComp_two]
    simp only [AABB.hit, h0, h1, h2]
  have hhit : BVHTree.hit Sphere.hit (.node (.prim ⟨⟨4, 2, 4⟩, 3, 5⟩)
      (.prim ⟨⟨4, 2, 4⟩, 3, 5⟩) ⟨⟨1, -1, 1⟩, ⟨7, 5, 7⟩⟩) ⟨⟨0, 0, 0⟩, ⟨2, 1, 2⟩⟩ (1 / 1000)
      ((10 : ℚ) : WithTop ℚ) default =
      (true, ⟨⟨2, 1, 2⟩, ⟨-2/3, -1/3, -2/3⟩, 1, true, 5⟩) := by
    simp only [BVHTree.hit, hbhit]
    rw [if_neg (by simp)]
    rw [hsph _ default (by
      rw [WithTop.coe_le_coe]
      norm_num)]
    rw [if_pos rfl]
    dsimp only
    rw [hsph _ _ (le_refl _)]
    rfl
  exact C1_bvh_hit_sound_for_scan (fun _ => 0) 1 [⟨⟨4, 2, 4⟩, 3, 5⟩] 0 _ _ 1
    ⟨⟨0, 0, 0⟩, ⟨2, 1, 2⟩⟩ (1 / 1000) ((10 : ℚ) : WithTop ℚ) default default
    ⟨⟨2, 1, 2⟩, ⟨-2/3, -1/3, -2/3⟩, 1, true, 5⟩ hbuild hhit

/-- C4 (amended): a `Dielectric` with `ir = 1` has refraction ratio 1 in
both orientations and then the refraction branch leaves the unit
incoming direction unchanged; but the Schlick draw can still select the
reflection branch (with probability `(1−cosθ)^5 > 0`), which does bend
the ray.  Stated for rays whose squared direction length is an exact
nonzero square (so the normalization is exact), records with a unit
normal opposing the incoming direction, and a draw `u01` at or above
the Schlick reflectance. -/
theorem C4_dielectric_ratio_one_refract (ray_in : Ray) (record : HitRecord) (u01 : ℚ)
    (hex : ratSqrt ray_in.direction.length_squared * ratSqrt ray_in.direction.length_squared =
      ray_in.direction.length_squared)
    (hne : ray_in.direction.length_squared ≠ 0)
    (hn : record.normal.length_squared = 1)
    (hopp : ray_in.direction.unit_vector.dot record.normal ≤ 0)
    (hu01 : Dielectric.reflectance
      (min (-(ray_in.direction.unit_vector.dot record.normal)) 1) 1 ≤ u01) :
    Dielectric.scatter 1 ray_in record u01 =
      (true, ⟨1, 1, 1⟩, ⟨record.point, ray_in.direction.unit_vector⟩) := by
  have hu : ray_in.direction.unit_vector.length_squared = 1 :=
    Vec3.unit_vector_length_squared hex hne
  have hcs : ray_in.direction.unit_vector.dot record.normal *
      ray_in.direction.unit_vector.dot record.normal ≤ 1 := by
    have h := Vec3.dot_sq_le ray_in.direction.unit_vector record.normal
    rw [hu, hn] at h
    linarith
  have hle1 : -(ray_in.direction.unit_vector.dot record.normal) ≤ 1 := by nlinarith
  have hmin : min (-(ray_in.direction.unit_vector.dot record.normal)) 1 =
      -(ray_in.direction.unit_vector.dot record.normal) := min_eq_left hle1
  have hsin : ratSqrt (1 - min (-(ray_in.direction.unit_vector.dot record.normal)) 1 *
      min (-(ray_in.direction.unit_vector.dot record.normal)) 1) ≤ 1 := by
    rw [hmin]
    apply ratSqrt_le_one
    nlinarith
  have hratio : (if record.front_face then (1 : ℚ) / 1 else 1) = 1 := by
    split_ifs <;> norm_num
  simp only [Dielectric.scatter, hratio]
  rw [if_neg (by
    rw [not_or]
    constructor
    · simp only [decide_eq_true_eq, not_lt, gt_iff_lt, one_mul]
      exact hsin
    · exact not_lt.mpr hu01)]
  rw [refract_ratio_one ray_in.direction.unit_vector record.normal hu hn hopp]

/-- C4 counterexample: a `Dielectric` with `ir = 1`, a unit incoming
direction `(0,−4/5,−3/5)` against normal `(0,1,0)`, and a random draw
of 0.  The Schlick reflectance is `(1−4/5)^5 = 1/3125 > 0`, so the
scatter takes the reflection branch and returns direction
`(0,4/5,−3/5)` — not the (unit) incoming direction: `ir = 1` does bend
this ray for this draw. -/
theorem C4_counterexample :
    Dielectric.scatter 1 ⟨⟨0, 0, 0⟩, ⟨0, -4/5, -3/5⟩⟩ ⟨⟨0, 0, 0⟩, ⟨0, 1, 0⟩, 0, true, 0⟩ 0 =
      (true, ⟨1, 1, 1⟩, ⟨⟨0, 0, 0⟩, ⟨0, 4/5, -3/5⟩⟩) ∧
    (⟨⟨0, 0, 0⟩, ⟨0, -4/5, -3/5⟩⟩ : Ray).direction.unit_vector ≠ ⟨0, 4/5, -3/5⟩ := by
  have hls : (⟨0, -4/5, -3/5⟩ : Vec3).length_squared = 1 := by
    norm_num [Vec3.length_squared]
  have huv : (⟨0, -4/5, -3/5⟩ : Vec3).unit_vector = ⟨0, -4/5, -3/5⟩ := by
    simp only [Vec3.unit_vector, Vec3.length, hls, ratSqrt_one, Vec3.div_def]
    norm_num
  constructor
  · have hsq925 : ratSqrt ((9 : ℚ)/25) = 3/5 := by
      have h := ratSqrt_mul_self ((3 : ℚ)/5) (by norm_num)
      rw [show (3 : ℚ)/5 * (3/5) = 9/25 by norm_num] at h
      exact h
    have hdot : (⟨0, -4/5, -3/5⟩ : Vec3).dot ⟨0, 1, 0⟩ = -(4/5) := by
      norm_num [Vec3.dot]
    simp only [Dielectric.scatter]
    rw [huv, hdot]
    rw [show min (-(-(4/5) : ℚ)) 1 = 4/5 by norm_num]
    rw [show (1 : ℚ) - 4/5 * (4/5) = 9/25 by norm_num]
    rw [hsq925]
    rw [if_pos (by
      right
      norm_num [Dielectric.reflectance])]
    rw [show reflect ⟨0, -4/5, -3/5⟩ ⟨0, 1, 0⟩ = ⟨0, 4/5, -3/5⟩ by
      norm_num [reflect, Vec3.dot, Vec3.smul_def, Vec3.sub_def]]
  · show (⟨0, -4/5, -3/5⟩ : Vec3).unit_vector ≠ _
    rw [huv]
    intro hcontra
    have := congrArg Vec3.y hcontra
    norm_num at this

/-- C4 witness: the same configuration with a draw of 1 (at or above
the reflectance) takes the refraction branch and leaves the unit
incoming direction unchanged. -/
theorem C4_dielectric_ratio_one_refract_witness :
    Dielectric.scatter 1 ⟨⟨0, 0, 0⟩, ⟨0, -4/5, -3/5⟩⟩ ⟨⟨0, 0, 0⟩, ⟨0, 1, 0⟩, 0, true, 0⟩ 1 =
      (true, ⟨1, 1, 1⟩, ⟨(⟨⟨0, 0, 0⟩, ⟨0, 1, 0⟩, 0, true, 0⟩ : HitRecord).point,
        (⟨⟨0, 0, 0⟩, ⟨0, -4/5, -3/5⟩⟩ : Ray).direction.unit_vector⟩) := by
  have hls : (⟨0, -4/5, -3/5⟩ : Vec3).length_squared = 1 := by
    norm_num [Vec3.length_squared]
  have huv : (⟨0, -4/5, -3/5⟩ : Vec3).unit_vector = ⟨0, -4/5, -3/5⟩ := by
    simp only [Vec3.unit_vector, Vec3.length, hls, ratSqrt_one, Vec3.div_def]
    norm_num
  have hdot : (⟨0, -4/5, -3/5⟩ : Vec3).dot ⟨0, 1, 0⟩ = -(4/5) := by
    norm_num [Vec3.dot]
  exact C4_dielectric_ratio_one_refract ⟨⟨0, 0, 0⟩, ⟨0, -4/5, -3/5⟩⟩
    ⟨⟨0, 0, 0⟩, ⟨0, 1, 0⟩, 0, true, 0⟩ 1
    (by rw [show (⟨⟨0, 0, 0⟩, ⟨0, -4/5, -3/5⟩⟩ : Ray).direction.length_squared = 1
          from hls, ratSqrt_one]
        norm_num)
    (by rw [show (⟨⟨0, 0, 0⟩, ⟨0, -4/5, -3/5⟩⟩ : Ray).direction.length_squared = 1
          from hls]
        norm_num)
    (by norm_num [Vec3.length_squared])
    (by
      show (⟨0, -4/5, -3/5⟩ : Vec3).unit_vector.dot _ ≤ 0
      rw [huv, hdot]
      norm_num)
    (by
      show Dielectric.reflectance
        (min (-((⟨0, -4/5, -3/5⟩ : Vec3).unit_vector.dot _)) 1) 1 ≤ 1
      rw [huv, hdot]
      norm_num [Dielectric.reflectance])

/-- C7: for a non-empty collection (with enough fuel to cover its
length), the build raises `BuildError` exactly when some primitive has
no bounding box; the `Except` propagation means the error reaches the
caller unrecovered, and when every primitive is boxed the build returns
a tree. -/
theorem C7_build_error_iff {α : Type} (boxOf : α → Option AABB) (axs : ℕ → Fin 3)
    (fuel : ℕ) (P : List α) (n : ℕ) (hne : P ≠ []) (hfuel : P.length ≤ fuel) :
    (BVHNode.build boxOf axs fuel P n = .error .noBox ↔ ∃ p ∈ P, boxOf p = none) ∧
    ((∀ p ∈ P, (boxOf p).isSome) → ∃ out, BVHNode.build boxOf axs fuel P n = .ok out) := by
  have hlen1 : 1 ≤ P.length := List.length_pos.mpr hne
  constructor
  · constructor
    · intro herr
      by_contra hno
      push_neg at hno
      have hsome : ∀ p ∈ P, (boxOf p).isSome := by
        intro p hp
        rcases ho : boxOf p with _ | b
        · exact absurd ho (hno p hp)
        · rfl
      obtain ⟨out, hok⟩ := BVHNode.build_all_some_ok boxOf axs fuel P n hne hfuel hsome
      rw [hok] at herr
      exact absurd herr (by simp)
    · intro hex
      obtain ⟨f, rfl⟩ : ∃ f, fuel = f + 1 := ⟨fuel - 1, by omega⟩
      exact BVHNode.build_noBox_of_exists boxOf axs f P n hex
  · exact fun hsome => BVHNode.build_all_some_ok boxOf axs fuel P n hne hfuel hsome

/-- C7 witness: a one-element collection whose element has no bounding
box makes the build raise `BuildError`; with the sphere's (always
succeeding) box it builds a tree. -/
theorem C7_build_error_iff_witness :
    BVHNode.build (fun _ : Sphere => (none : Option AABB)) (fun _ => 0) 1
      [⟨⟨0, 0, 0⟩, 1, 0⟩] 0 = .error .noBox ∧
    (∃ out, BVHNode.build Sphere.bounding_box (fun _ => 0) 1 [⟨⟨0, 0, 0⟩, 1, 0⟩] 0 =
      .ok out) :=
  ⟨(C7_build_error_iff (fun _ => none) (fun _ => 0) 1 [⟨⟨0, 0, 0⟩, 1, 0⟩] 0 (by simp)
      (by simp)).1.mpr ⟨⟨⟨0, 0, 0⟩, 1, 0⟩, by simp, rfl⟩,
   (C7_build_error_iff Sphere.bounding_box (fun _ => 0) 1 [⟨⟨0, 0, 0⟩, 1, 0⟩] 0 (by simp)
      (by simp)).2 (fun p _ => rfl)⟩

/-- C9: for each `Hittable` variant — `Sphere`, `HittableList`,
`BVHNode` — a hit query that returns `false` leaves the caller's record
exactly as it was. -/
theorem C9_miss_leaves_record (ray : Ray) (t_min : ℚ) (t_max : WithTop ℚ) :
    (∀ (s : Sphere) (rec rec' : HitRecord),
      s.hit ray t_min t_max rec = (false, rec') → rec' = rec) ∧
    (∀ (objects : List Sphere) (rec rec' : HitRecord),
      HittableList.hit objects ray t_min t_max rec = (false, rec') → rec' = rec) ∧
    (∀ (t : BVHTree Sphere) (rec rec' : HitRecord),
      BVHTree.hit Sphere.hit t ray t_min t_max rec = (false, rec') → rec' = rec) :=
  ⟨fun _ _ _ h => Sphere.hit_false_frame h,
   fun objects rec rec' h =>
     HittableList.hitLoop_false_frame ray t_min objects t_max default false rec rec' h,
   fun t rec rec' h => BVHTree.hit_miss_frame t ray t_min t_max rec rec' h⟩

/-- C9 witness: a ray along the x-axis misses a far-off sphere (the
discriminant is negative), the one-sphere list, and the one-sphere BVH
node (whose box the slab test rejects); in each case a distinctive
record passes through unchanged. -/
theorem C9_miss_leaves_record_witness :
    Sphere.hit ⟨⟨5, 5, 5⟩, 1, 0⟩ ⟨⟨0, 0, 0⟩, ⟨1, 0, 0⟩⟩ (1 / 1000) ((100 : ℚ) : WithTop ℚ)
      ⟨⟨1, 2, 3⟩, ⟨4, 5, 6⟩, 7, true, 8⟩ = (false, ⟨⟨1, 2, 3⟩, ⟨4, 5, 6⟩, 7, true, 8⟩) ∧
    HittableList.hit [⟨⟨5, 5, 5⟩, 1, 0⟩] ⟨⟨0, 0, 0⟩, ⟨1, 0, 0⟩⟩ (1 / 1000)
      ((100 : ℚ) : WithTop ℚ) ⟨⟨1, 2, 3⟩, ⟨4, 5, 6⟩, 7, true, 8⟩ =
      (false, ⟨⟨1, 2, 3⟩, ⟨4, 5, 6⟩, 7, true, 8⟩) ∧
    BVHTree.hit Sphere.hit (.node (.prim ⟨⟨5, 5, 5⟩, 1, 0⟩) (.prim ⟨⟨5, 5, 5⟩, 1, 0⟩)
      ⟨⟨4, 4, 4⟩, ⟨6, 6, 6⟩⟩) ⟨⟨0, 0, 0⟩, ⟨1, 0, 0⟩⟩ (1 / 1000) ((100 : ℚ) : WithTop ℚ)
      ⟨⟨1, 2, 3⟩, ⟨4, 5, 6⟩, 7, true, 8⟩ = (false, ⟨⟨1, 2, 3⟩, ⟨4, 5, 6⟩, 7, true, 8⟩) ∧
    ((⟨⟨1, 2, 3⟩, ⟨4, 5, 6⟩, 7, true, 8⟩ : HitRecord) = ⟨⟨1, 2, 3⟩, ⟨4, 5, 6⟩, 7, true, 8⟩ ∧
     (⟨⟨1, 2, 3⟩, ⟨4, 5, 6⟩, 7, true, 8⟩ : HitRecord) = ⟨⟨1, 2, 3⟩, ⟨4, 5, 6⟩, 7, true, 8⟩ ∧
     (⟨⟨1, 2, 3⟩, ⟨4, 5, 6⟩, 7, true, 8⟩ : HitRecord) = ⟨⟨1, 2, 3⟩, ⟨4, 5, 6⟩, 7, true, 8⟩) := by
  have hdisc : sphDisc ⟨⟨5, 5, 5⟩, 1, 0⟩ ⟨⟨0, 0, 0⟩, ⟨1, 0, 0⟩⟩ = -49 := by
    norm_num [sphDisc, sphHalfB, sphA, Vec3.dot, Vec3.length_squared, Vec3.sub_def]
  have hsph : ∀ rec : HitRecord,
      Sphere.hit ⟨⟨5, 5, 5⟩, 1, 0⟩ ⟨⟨0, 0, 0⟩, ⟨1, 0, 0⟩⟩ (1 / 1000) ((100 : ℚ) : WithTop ℚ)
        rec = (false, rec) := by
    intro rec
    rw [Sphere.hit_unfold, hdisc]
    rw [if_pos (by norm_num)]
  have hlist : HittableList.hit [⟨⟨5, 5, 5⟩, 1, 0⟩] ⟨⟨0, 0, 0⟩, ⟨1, 0, 0⟩⟩ (1 / 1000)
      ((100 : ℚ) : WithTop ℚ) ⟨⟨1, 2, 3⟩, ⟨4, 5, 6⟩, 7, true, 8⟩ =
      (false, ⟨⟨1, 2, 3⟩, ⟨4, 5, 6⟩, 7, true, 8⟩) := by
    simp only [HittableList.hit, HittableList.hitLoop, hsph]
    simp
  have hslab0 : slabStep ⟨⟨4, 4, 4⟩, ⟨6, 6, 6⟩⟩ ⟨⟨0, 0, 0⟩, ⟨1, 0, 0⟩⟩ 0 (1 / 1000)
      ((100 : ℚ) : WithTop ℚ) = some (4, ((6 : ℚ) : WithTop ℚ)) := by
    rw [slabStep_coe]
    norm_num [axisComp_zero]
  have hslab1 : slabStep ⟨⟨4, 4, 4⟩, ⟨6, 6, 6⟩⟩ ⟨⟨0, 0, 0⟩, ⟨1, 0, 0⟩⟩ 1 4
      ((6 : ℚ) : WithTop ℚ) = none := by
    rw [slabStep_coe]
    norm_num [axisComp_one]
  have hbox : AABB.hit ⟨⟨4, 4, 4⟩, ⟨6, 6, 6⟩⟩ ⟨⟨0, 0, 0⟩, ⟨1, 0, 0⟩⟩ (1 / 1000)
      ((100 : ℚ) : WithTop ℚ) = false := by
    simp only [AABB.hit, hslab0, hslab1]
  have hbvh : BVHTree.hit Sphere.hit (.node (.prim ⟨⟨5, 5, 5⟩, 1, 0⟩)
      (.prim ⟨⟨5, 5, 5⟩, 1, 0⟩) ⟨⟨4, 4, 4⟩, ⟨6, 6, 6⟩⟩) ⟨⟨0, 0, 0⟩, ⟨1, 0, 0⟩⟩ (1 / 1000)
      ((100 : ℚ) : WithTop ℚ) ⟨⟨1, 2, 3⟩, ⟨4, 5, 6⟩, 7, true, 8⟩ =
      (false, ⟨⟨1, 2, 3⟩, ⟨4, 5, 6⟩, 7, true, 8⟩) := by
    simp only [BVHTree.hit, hbox]
    rw [if_pos (by simp)]
  refine ⟨hsph _, hlist, hbvh, ?_, ?_, ?_⟩
  · exact (C9_miss_leaves_record ⟨⟨0, 0, 0⟩, ⟨1, 0, 0⟩⟩ (1 / 1000)
      ((100 : ℚ) : WithTop ℚ)).1 ⟨⟨5, 5, 5⟩, 1, 0⟩ _ _ (hsph _)
  · exact (C9_miss_leaves_record ⟨⟨0, 0, 0⟩, ⟨1, 0, 0⟩⟩ (1 / 1000)
      ((100 : ℚ) : WithTop ℚ)).2.1 [⟨⟨5, 5, 5⟩, 1, 0⟩] _ _ hlist
  · exact (C9_miss_leaves_record ⟨⟨0, 0, 0⟩, ⟨1, 0, 0⟩⟩ (1 / 1000)
      ((100 : ℚ) : WithTop ℚ)).2.2 _ _ _ hbvh

/-- C8 witness: the unit sphere at the origin hit head-on by the ray from
`(0,0,2)` toward `-z` yields the record with point and normal `(0,0,1)`,
`t = 1`, and `front_face = true`; the face-normal properties hold there. -/
theorem C8_face_normal_witness :
    ((⟨⟨0, 0, 1⟩, ⟨0, 0, 1⟩, 1, true, 0⟩ : HitRecord).front_face = true ↔
      (⟨⟨0, 0, 2⟩, ⟨0, 0, -1⟩⟩ : Ray).direction.dot
        (((⟨⟨0, 0, 1⟩, ⟨0, 0, 1⟩, 1, true, 0⟩ : HitRecord).point -
          (⟨⟨0, 0, 0⟩, 1, 0⟩ : Sphere).center) / (⟨⟨0, 0, 0⟩, 1, 0⟩ : Sphere).radius) < 0) ∧
    (⟨⟨0, 0, 1⟩, ⟨0, 0, 1⟩, 1, true, 0⟩ : HitRecord).normal =
      (if (⟨⟨0, 0, 2⟩, ⟨0, 0, -1⟩⟩ : Ray).direction.dot
          (((⟨⟨0, 0, 1⟩, ⟨0, 0, 1⟩, 1, true, 0⟩ : HitRecord).point -
            (⟨⟨0, 0, 0⟩, 1, 0⟩ : Sphere).center) / (⟨⟨0, 0, 0⟩, 1, 0⟩ : Sphere).radius) < 0
       then ((⟨⟨0, 0, 1⟩, ⟨0, 0, 1⟩, 1, true, 0⟩ : HitRecord).point -
            (⟨⟨0, 0, 0⟩, 1, 0⟩ : Sphere).center) / (⟨⟨0, 0, 0⟩, 1, 0⟩ : Sphere).radius
       else -(((⟨⟨0, 0, 1⟩, ⟨0, 0, 1⟩, 1, true, 0⟩ : HitRecord).point -
            (⟨⟨0, 0, 0⟩, 1, 0⟩ : Sphere).center) / (⟨⟨0, 0, 0⟩, 1, 0⟩ : Sphere).radius)) ∧
    (⟨⟨0, 0, 2⟩, ⟨0, 0, -1⟩⟩ : Ray).direction.dot
      (⟨⟨0, 0, 1⟩, ⟨0, 0, 1⟩, 1, true, 0⟩ : HitRecord).normal ≤ 0 :=
  C8_face_normal ⟨⟨0, 0, 0⟩, 1, 0⟩ ⟨⟨0, 0, 2⟩, ⟨0, 0, -1⟩⟩ (1 / 1000)
    ((10 : ℚ) : WithTop ℚ) default ⟨⟨0, 0, 1⟩, ⟨0, 0, 1⟩, 1, true, 0⟩ (by
      have hdisc : sphDisc ⟨⟨0, 0, 0⟩, 1, 0⟩ ⟨⟨0, 0, 2⟩, ⟨0, 0, -1⟩⟩ = 1 := by
        norm_num [sphDisc, sphHalfB, sphA, Vec3.dot, Vec3.length_squared, Vec3.sub_def]
      have hr1 : sphRoot1 ⟨⟨0, 0, 0⟩, 1, 0⟩ ⟨⟨0, 0, 2⟩, ⟨0, 0, -1⟩⟩ = 1 := by
        simp only [sphRoot1, hdisc, ratSqrt_one]
        norm_num [sphHalfB, sphA, Vec3.dot, Vec3.length_squared, Vec3.sub_def]
      rw [Sphere.hit_unfold, hdisc, hr1]
      rw [if_neg (by norm_num)]
      rw [if_neg (by
        rw [not_or, not_lt, not_lt]
        constructor
        · norm_num
        · exact_mod_cast (by norm_num : (1 : ℚ) ≤ 10))]
      refine Prod.ext rfl ?_
      show Sphere.writeRec _ _ 1 default = _
      simp only [Sphere.writeRec, HitRecord.set_face_normal, Ray.at, Vec3.smul_def,
        Vec3.add_def, Vec3.sub_def, Vec3.div_def, Vec3.dot]
      norm_num)

/-- C10: building a BVH reorders the caller's primitive vector in place
while preserving its contents: every successful `BVHNode::build` returns
an output list that is a permutation of the input list (no primitive
added, dropped, or modified), and a concrete three-sphere build — whose
sort key is the bounding-box minimum along the chosen axis — returns the
spheres in an order genuinely different from the input order. -/
theorem C10_build_permutes_in_place :
    (∀ (α : Type) (boxOf : α → Option AABB) (axs : ℕ → Fin 3) (fuel : ℕ)
        (objects : List α) (n : ℕ) (tree : BVHTree α) (out : List α) (n' : ℕ),
        BVHNode.build boxOf axs fuel objects n = .ok (tree, out, n') →
        out.Perm objects) ∧
    (∃ (tree : BVHTree Sphere) (out : List Sphere) (n' : ℕ),
        BVHNode.build Sphere.bounding_box (fun _ => 0) 3
          [⟨⟨3, 0, 0⟩, 1, 1⟩, ⟨⟨1, 0, 0⟩, 1, 2⟩, ⟨⟨2, 0, 0⟩, 1, 3⟩] 0 =
          .ok (tree, out, n') ∧
        out ≠ [⟨⟨3, 0, 0⟩, 1, 1⟩, ⟨⟨1, 0, 0⟩, 1, 2⟩, ⟨⟨2, 0, 0⟩, 1, 3⟩]) := by
  constructor
  · intro α boxOf axs fuel objects n tree out n' h
    exact (BVHNode.build_perm boxOf axs fuel objects n tree out n' h).1
  have hb1 : Sphere.bounding_box ⟨⟨3, 0, 0⟩, 1, 1⟩ = some ⟨⟨2, -1, -1⟩, ⟨4, 1, 1⟩⟩ := by
    simp only [Sphere.bounding_box, Vec3.sub_def, Vec3.add_def]
    norm_num
  have hb2 : Sphere.bounding_box ⟨⟨1, 0, 0⟩, 1, 2⟩ = some ⟨⟨0, -1, -1⟩, ⟨2, 1, 1⟩⟩ := by
    simp only [Sphere.bounding_box, Vec3.sub_def, Vec3.add_def]
    norm_num
  have hb3 : Sphere.bounding_box ⟨⟨2, 0, 0⟩, 1, 3⟩ = some ⟨⟨1, -1, -1⟩, ⟨3, 1, 1⟩⟩ := by
    simp only [Sphere.bounding_box, Vec3.sub_def, Vec3.add_def]
    norm_num
  have hm1 : boxMinOn Sphere.bounding_box 0 ⟨⟨3, 0, 0⟩, 1, 1⟩ = 2 := by
    simp only [boxMinOn, hb1, axisComp_zero]
  have hm2 : boxMinOn Sphere.bounding_box 0 ⟨⟨1, 0, 0⟩, 1, 2⟩ = 0 := by
    simp only [boxMinOn, hb2, axisComp_zero]
  have hm3 : boxMinOn Sphere.bounding_box 0 ⟨⟨2, 0, 0⟩, 1, 3⟩ = 1 := by
    simp only [boxMinOn, hb3, axisComp_zero]
  have hsort : insertionSort (fun a b =>
      decide (boxMinOn Sphere.bounding_box 0 a < boxMinOn Sphere.bounding_box 0 b))
      [⟨⟨3, 0, 0⟩, 1, 1⟩, ⟨⟨1, 0, 0⟩, 1, 2⟩, ⟨⟨2, 0, 0⟩, 1, 3⟩] =
      [⟨⟨1, 0, 0⟩, 1, 2⟩, ⟨⟨2, 0, 0⟩, 1, 3⟩, ⟨⟨3, 0, 0⟩, 1, 1⟩] := by
    simp only [insertionSort, insertSorted, hm1, hm2, hm3]
    norm_num
  have hleft : BVHNode.build Sphere.bounding_box (fun _ => 0) 2 [⟨⟨1, 0, 0⟩, 1, 2⟩] 1 =
      .ok (.node (.prim ⟨⟨1, 0, 0⟩, 1, 2⟩) (.prim ⟨⟨1, 0, 0⟩, 1, 2⟩)
        ⟨⟨0, -1, -1⟩, ⟨2, 1, 1⟩⟩, [⟨⟨1, 0, 0⟩, 1, 2⟩], 2) := by
    simp only [BVHNode.build, BVHTree.boundingBox, hb2, AABB.surrounding_box]
    norm_num
  have hright : BVHNode.build Sphere.bounding_box (fun _ => 0) 2
      [⟨⟨2, 0, 0⟩, 1, 3⟩, ⟨⟨3, 0, 0⟩, 1, 1⟩] 2 =
      .ok (.node (.prim ⟨⟨2, 0, 0⟩, 1, 3⟩) (.prim ⟨⟨3, 0, 0⟩, 1, 1⟩)
        ⟨⟨1, -1, -1⟩, ⟨4, 1, 1⟩⟩, [⟨⟨2, 0, 0⟩, 1, 3⟩, ⟨⟨3, 0, 0⟩, 1, 1⟩], 3) := by
    simp only [BVHNode.build, BVHTree.boundingBox, hb3, hb1, axisComp_zero]
    rw [if_pos (by norm_num)]
    simp only [AABB.surrounding_box]
    norm_num
  refine ⟨.node (.node (.prim ⟨⟨1, 0, 0⟩, 1, 2⟩) (.prim ⟨⟨1, 0, 0⟩, 1, 2⟩)
      ⟨⟨0, -1, -1⟩, ⟨2, 1, 1⟩⟩)
    (.node (.prim ⟨⟨2, 0, 0⟩, 1, 3⟩) (.prim ⟨⟨3, 0, 0⟩, 1, 1⟩) ⟨⟨1, -1, -1⟩, ⟨4, 1, 1⟩⟩)
    ⟨⟨0, -1, -1⟩, ⟨4, 1, 1⟩⟩,
    [⟨⟨1, 0, 0⟩, 1, 2⟩, ⟨⟨2, 0, 0⟩, 1, 3⟩, ⟨⟨3, 0, 0⟩, 1, 1⟩], 3, ?_, by
      intro hEq
      injection hEq with h1 h2
      simp only [Sphere.mk.injEq, Vec3.mk.injEq] at h1
      norm_num at h1⟩
  have hany : (([⟨⟨3, 0, 0⟩, 1, 1⟩, ⟨⟨1, 0, 0⟩, 1, 2⟩, ⟨⟨2, 0, 0⟩, 1, 3⟩] : List Sphere).any
      fun o => (Sphere.bounding_box o).isNone) = false := by
    simp [hb1, hb2, hb3]
  show BVHNode.build Sphere.bounding_box (fun _ => 0) (2 + 1)
      [⟨⟨3, 0, 0⟩, 1, 1⟩, ⟨⟨1, 0, 0⟩, 1, 2⟩, ⟨⟨2, 0, 0⟩, 1, 3⟩] 0 = _
  rw [BVHNode.build]
  case x_3 => simp
  case x_4 => simp
  dsimp only
  rw [if_neg (by rw [hany]; simp)]
  rw [show ([(⟨⟨3, 0, 0⟩, 1, 1⟩ : Sphere), ⟨⟨1, 0, 0⟩, 1, 2⟩,
    ⟨⟨2, 0, 0⟩, 1, 3⟩] : List Sphere).length / 2 = 1 from rfl]
  rw [hsort]
  rw [show List.take 1 [(⟨⟨1, 0, 0⟩, 1, 2⟩ : Sphere), ⟨⟨2, 0, 0⟩, 1, 3⟩, ⟨⟨3, 0, 0⟩, 1, 1⟩] =
    [⟨⟨1, 0, 0⟩, 1, 2⟩] from rfl]
  rw [show List.drop 1 [(⟨⟨1, 0, 0⟩, 1, 2⟩ : Sphere), ⟨⟨2, 0, 0⟩, 1, 3⟩, ⟨⟨3, 0, 0⟩, 1, 1⟩] =
    [⟨⟨2, 0, 0⟩, 1, 3⟩, ⟨⟨3, 0, 0⟩, 1, 1⟩] from rfl]
  rw [show (0 : ℕ) + 1 = 1 from rfl]
  rw [hleft]
  dsimp only
  rw [hright]
  dsimp only [BVHTree.boundingBox]
  simp only [AABB.surrounding_box]
  norm_num
